import Mathlib

/-!
Verification of the RedisDoc module (`src/lib.rs`, `src/redisjson.rs`).

The development shallowly embeds the JSON value model, the path
resolution / rebuild-with-replacement engine, and the per-command
operations of the module.

Modelling conventions:

* JSON numbers are parametric in a type `α` together with a `NumModel α`
  (serialization / parsing of one number token) and, for the numeric
  commands, a `FloatModel α` (the double-precision `+`, `*`, `powf` and
  the finiteness test `Number::from_f64` performs).  The source stores
  `f64` values; IEEE arithmetic itself is external to the repository
  (`serde_json::Number`), so it is kept abstract and instantiated with
  executable toy models for concrete evaluations.
* Paths are modelled structurally (`Step`): member access, index access
  and the multi-match wildcard.  The textual JSONPath engine is the
  external `jsonpath_lib` crate; its documented semantics ("for every
  node the path matches, invoke the transform; `Some` replaces, `None`
  removes; non-root paths are resolved via an immutable rebuild") is
  Modelled from the spec by `selV` (matches, in document order) and
  `rwV` (stateful rebuild).  Malformed-path errors cannot arise for
  structural paths and are not modelled.
* Strings are `List Char`; the serializer and parser model
  `serde_json::to_string` / `from_str` on canonical compact text
  (the only form the module ever produces; whitespace handling of the
  external parser is not modelled).
* Rust panics (slice-index underflow/overflow on `usize`) are modelled
  by an outer `Option`: `none` is a panic.  `usize` subtraction wraps
  (`wsub1`), as release-mode Rust does.
* A mutating command returns the command result together with the store
  content after the call, because the source mutates `self.data` in
  place before the per-match errors are aggregated.
-/

/-- Punctuation characters, by code point (kept out of character
literals so the file contains no quote-like literals). -/
def qu : Char := Char.ofNat 34

/-- Backslash. -/
def bs : Char := Char.ofNat 92

/-- Left square bracket. -/
def lsb : Char := Char.ofNat 91

/-- Right square bracket. -/
def rsb : Char := Char.ofNat 93

/-- Left curly brace. -/
def lcb : Char := Char.ofNat 123

/-- Right curly brace. -/
def rcb : Char := Char.ofNat 125

/-- Comma. -/
def cma : Char := Char.ofNat 44

/-- Colon. -/
def cln : Char := Char.ofNat 58

/-- Minus sign. -/
def mns : Char := Char.ofNat 45

/-- `serde_json::Value`: the JSON tree stored in a `RedisJSON` document.
Objects are modelled as ordered association lists (the spec:
"object keys unique and order-preserving"). -/
inductive JV (α : Type) where
  | null
  | bool (b : Bool)
  | num (n : α)
  | str (s : List Char)
  | arr (items : List (JV α))
  | obj (entries : List (List Char × JV α))

/-- One step of a structural path; a path is a `List Step` and the root
path `$` is `[]`.  Modelled from the spec: "supports dotted child
access, bracket indices, and multi-match wildcards". -/
inductive Step where
  | key (k : List Char)
  | idx (i : Nat)
  | wild
deriving DecidableEq

/-- Serialization/parsing of a single JSON number token
(`serde_json::Number` with the external `ryu`/lexer, kept abstract). -/
structure NumModel (α : Type) where
  ser : α → List Char
  parse : List Char → Option (α × List Char)

/-- The double-precision operations used by `json_num_op` and the
finiteness test of `serde_json::Number::from_f64` (which returns `None`
exactly on NaN/infinite input), kept abstract. -/
structure FloatModel (α : Type) where
  add : α → α → α
  mul : α → α → α
  powf : α → α → α
  isFinite : α → Bool

variable {α : Type} {σ : Type} {τ : Type}

/-- Hex digit of `n < 16`, lowercase (as `serde_json` writes). -/
def hexDig (n : Nat) : Char :=
  if n < 10 then Char.ofNat (48 + n) else Char.ofNat (87 + n)

/-- Value of one hex digit character (the parser accepts both cases). -/
def hexVal (c : Char) : Option Nat :=
  if 48 ≤ c.toNat ∧ c.toNat ≤ 57 then some (c.toNat - 48)
  else if 97 ≤ c.toNat ∧ c.toNat ≤ 102 then some (c.toNat - 87)
  else if 65 ≤ c.toNat ∧ c.toNat ≤ 70 then some (c.toNat - 55)
  else none

/-- String escaping of `serde_json`: quote and backslash get a two-byte
escape, control characters get the short escapes `b t n f r` or a
`u00XX` escape, everything else is emitted raw. -/
def escapeChar (c : Char) : List Char :=
  if c = qu then [bs, qu]
  else if c = bs then [bs, bs]
  else if c.toNat < 32 then
    if c.toNat = 8 then [bs, 'b']
    else if c.toNat = 9 then [bs, 't']
    else if c.toNat = 10 then [bs, 'n']
    else if c.toNat = 12 then [bs, 'f']
    else if c.toNat = 13 then [bs, 'r']
    else [bs, 'u', '0', '0', hexDig (c.toNat / 16), hexDig (c.toNat % 16)]
  else [c]

/-- Escape a whole string body. -/
def escStr : List Char → List Char
  | [] => []
  | c :: s => escapeChar c ++ escStr s

/-- Serialize a string together with its surrounding quotes. -/
def serStr (s : List Char) : List Char := qu :: escStr s ++ [qu]

/-- The serialized `null` keyword. -/
def litNull : List Char := ['n', 'u', 'l', 'l']

/-- The serialized `true` keyword. -/
def litTrue : List Char := ['t', 'r', 'u', 'e']

/-- The serialized `false` keyword. -/
def litFalse : List Char := ['f', 'a', 'l', 's', 'e']

mutual

/-- `serde_json::to_string` (compact canonical form), numbers via the
`NumModel`.  This is also `Value::to_string`, used by `json_rdb_save`
and by the replies that serialize a value. -/
def serV (M : NumModel α) : JV α → List Char
  | .null => litNull
  | .bool true => litTrue
  | .bool false => litFalse
  | .num n => M.ser n
  | .str s => serStr s
  | .arr [] => [lsb, rsb]
  | .arr (x :: xs) => lsb :: (serV M x ++ serArrTail M xs)
  | .obj [] => [lcb, rcb]
  | .obj ((k, x) :: tl) => lcb :: (serStr k ++ cln :: serV M x ++ serObjTail M tl)

/-- Tail of a serialized array: `,v` for each further item, then `]`. -/
def serArrTail (M : NumModel α) : List (JV α) → List Char
  | [] => [rsb]
  | x :: xs => cma :: (serV M x ++ serArrTail M xs)

/-- Tail of a serialized object: `,"k":v` for each further member,
then the closing brace. -/
def serObjTail (M : NumModel α) : List (List Char × JV α) → List Char
  | [] => [rcb]
  | (k, x) :: tl => cma :: (serStr k ++ cln :: serV M x ++ serObjTail M tl)

end

/-- Unescape one short escape code (the codes `serde_json` accepts). -/
def unescChar (e : Char) : Option Char :=
  if e = qu then some qu
  else if e = bs then some bs
  else if e = Char.ofNat 47 then some (Char.ofNat 47)
  else if e = 'b' then some (Char.ofNat 8)
  else if e = 'f' then some (Char.ofNat 12)
  else if e = 'n' then some (Char.ofNat 10)
  else if e = 'r' then some (Char.ofNat 13)
  else if e = 't' then some (Char.ofNat 9)
  else none

/-- Parse a string body up to (and consuming) the closing quote. -/
def pStrBody : List Char → Option (List Char × List Char)
  | [] => none
  | c :: rest =>
    if c = qu then some ([], rest)
    else if c = bs then
      match rest with
      | [] => none
      | e :: rest2 =>
        if e = 'u' then
          match rest2 with
          | h1 :: h2 :: h3 :: h4 :: rest3 =>
            match hexVal h1, hexVal h2, hexVal h3, hexVal h4 with
            | some a, some b, some c3, some d =>
              let n := ((a * 16 + b) * 16 + c3) * 16 + d
              if n.isValidChar then
                match pStrBody rest3 with
                | none => none
                | some (s, r) => some (Char.ofNat n :: s, r)
              else none
            | _, _, _, _ => none
          | _ => none
        else
          match unescChar e with
          | none => none
          | some ch =>
            match pStrBody rest2 with
            | none => none
            | some (s, r) => some (ch :: s, r)
    else
      match pStrBody rest with
      | none => none
      | some (s, r) => some (c :: s, r)

/-- Match an expected literal token and return the remainder. -/
def expectTok : List Char → List Char → Option (List Char)
  | [], cs => some cs
  | p :: ps, c :: cs => if c = p then expectTok ps cs else none
  | _ :: _, [] => none

mutual

/-- Fuel-indexed JSON parser (model of `serde_json::from_str` on
canonical compact text; the fuel bounds the recursion depth, like the
external parser's recursion limit). -/
def pV (M : NumModel α) : Nat → List Char → Option (JV α × List Char)
  | 0, _ => none
  | fuel + 1, cs =>
    match cs with
    | [] => none
    | c :: rest =>
      if c = 'n' then
        match expectTok ['u', 'l', 'l'] rest with
        | some r => some (.null, r)
        | none => none
      else if c = 't' then
        match expectTok ['r', 'u', 'e'] rest with
        | some r => some (.bool true, r)
        | none => none
      else if c = 'f' then
        match expectTok ['a', 'l', 's', 'e'] rest with
        | some r => some (.bool false, r)
        | none => none
      else if c = qu then
        match pStrBody rest with
        | none => none
        | some (s, r) => some (.str s, r)
      else if c = lsb then
        match pItems M fuel rest with
        | none => none
        | some (vs, r) => some (.arr vs, r)
      else if c = lcb then
        match pMembers M fuel rest with
        | none => none
        | some (kvs, r) => some (.obj kvs, r)
      else
        match M.parse (c :: rest) with
        | none => none
        | some (a, r) => some (.num a, r)

/-- Parse the items of an array after the opening bracket, consuming
the closing `]` (one divergence from the external parser: a trailing
comma before `]` is tolerated; canonical text has none). -/
def pItems (M : NumModel α) : Nat → List Char → Option (List (JV α) × List Char)
  | 0, _ => none
  | fuel + 1, cs =>
    match cs with
    | [] => none
    | d :: rest2 =>
      if d = rsb then some ([], rest2)
      else
        match pV M fuel (d :: rest2) with
        | none => none
        | some (v, r) =>
          match r with
          | [] => none
          | e :: r2 =>
            if e = cma then
              match pItems M fuel r2 with
              | none => none
              | some (vs, r3) => some (v :: vs, r3)
            else if e = rsb then some ([v], r2)
            else none

/-- Parse the members of an object after the opening brace, consuming
the closing brace (with the same trailing-comma tolerance). -/
def pMembers (M : NumModel α) : Nat → List Char → Option (List (List Char × JV α) × List Char)
  | 0, _ => none
  | fuel + 1, cs =>
    match cs with
    | [] => none
    | c :: rest =>
      if c = rcb then some ([], rest)
      else if c = qu then
        match pStrBody rest with
        | none => none
        | some (k, r) =>
          match r with
          | [] => none
          | d :: r2 =>
            if d = cln then
              match pV M fuel r2 with
              | none => none
              | some (v, r3) =>
                match r3 with
                | [] => none
                | e :: r4 =>
                  if e = cma then
                    match pMembers M fuel r4 with
                    | none => none
                    | some (tl, r5) => some ((k, v) :: tl, r5)
                  else if e = rcb then some ([(k, v)], r4)
                  else none
            else none
      else none

end

/-- `RedisJSON::parse_str` for `Format::JSON` (the only format the
claims exercise; the BSON branch decodes via the external `bson` crate
and is not modelled).  `from_str` demands that the whole input is
consumed. -/
def parseStr (M : NumModel α) (cs : List Char) : Except String (JV α) :=
  match pV M (cs.length + 1) cs with
  | some (v, []) => .ok v
  | _ => .error "ERR failed to parse JSON"

-- quick sanity checks (structural definitions evaluate in the kernel)
example : serV ⟨fun _ => ['0'], fun _ => none⟩ (JV.arr [JV.null, JV.num ()]) =
    [lsb, 'n', 'u', 'l', 'l', cma, '0', rsb] := rfl

example :
    parseStr ⟨fun _ => ['0'], fun cs =>
        match cs with
        | c :: rest => if c = '0' then some ((), rest) else none
        | [] => none⟩
      [lsb, 'n', 'u', 'l', 'l', cma, '0', rsb] = .ok (JV.arr [JV.null, JV.num ()]) := rfl

/-! ## Path resolution and rebuild engine

Modelled from the spec (the textual engine is the external
`jsonpath_lib` crate): `selV` lists the nodes a path matches, in
document order; `rwV` rebuilds the tree, invoking a stateful transform
`f` on every match — the transform returns `none` for a panic, and
otherwise the new state together with `some newValue` (replace) or
`none` (remove, as `delete_path` uses). -/

mutual

/-- Matches of a path in document order (`jsonpath_lib::select`). -/
def selV (v : JV α) (path : List Step) : List (JV α) :=
  match v, path with
  | v, [] => [v]
  | .obj m, .key k :: rest => selObjKey m k rest
  | .obj m, .wild :: rest => selObjAll m rest
  | .arr xs, .idx i :: rest => selArrIdx xs i rest
  | .arr xs, .wild :: rest => selArrAll xs rest
  | _, _ => []

/-- Matches below the entries of an object for a member step. -/
def selObjKey (m : List (List Char × JV α)) (k : List Char) (rest : List Step) :
    List (JV α) :=
  match m with
  | [] => []
  | (k', x) :: tl => (if k' = k then selV x rest else []) ++ selObjKey tl k rest

/-- Matches below all entries of an object for a wildcard step. -/
def selObjAll (m : List (List Char × JV α)) (rest : List Step) : List (JV α) :=
  match m with
  | [] => []
  | (_, x) :: tl => selV x rest ++ selObjAll tl rest

/-- Matches below the `i`-th element of an array for an index step. -/
def selArrIdx (xs : List (JV α)) (i : Nat) (rest : List Step) : List (JV α) :=
  match xs, i with
  | [], _ => []
  | x :: _, 0 => selV x rest
  | _ :: tl, i + 1 => selArrIdx tl i rest

/-- Matches below all elements of an array for a wildcard step. -/
def selArrAll (xs : List (JV α)) (rest : List Step) : List (JV α) :=
  match xs with
  | [] => []
  | x :: tl => selV x rest ++ selArrAll tl rest

end

mutual

/-- Stateful rebuild-with-replacement
(`jsonpath_lib::replace_with` / `SelectorMut::replace_with`):
walk the tree along the path, apply `f` to every match and rebuild.
`none` propagates a panic of the transform. -/
def rwV (f : σ → JV α → Option (σ × Option (JV α))) (s : σ) (v : JV α)
    (path : List Step) : Option (σ × JV α) :=
  match v, path with
  | v, [] => some (s, v)
  | .obj m, .key k :: rest =>
    match rwObjKey f s m k rest with
    | none => none
    | some (s', m') => some (s', .obj m')
  | .obj m, .wild :: rest =>
    match rwObjAll f s m rest with
    | none => none
    | some (s', m') => some (s', .obj m')
  | .arr xs, .idx i :: rest =>
    match rwArrIdx f s xs i rest with
    | none => none
    | some (s', xs') => some (s', .arr xs')
  | .arr xs, .wild :: rest =>
    match rwArrAll f s xs rest with
    | none => none
    | some (s', xs') => some (s', .arr xs')
  | v, _ => some (s, v)

/-- Rebuild of an object's entries for a member step. -/
def rwObjKey (f : σ → JV α → Option (σ × Option (JV α))) (s : σ)
    (m : List (List Char × JV α)) (k : List Char) (rest : List Step) :
    Option (σ × List (List Char × JV α)) :=
  match m with
  | [] => some (s, [])
  | (k', x) :: tl =>
    if k' = k then
      match (match rest with
             | [] => f s x
             | r :: rs =>
               match rwV f s x (r :: rs) with
               | none => none
               | some (s', x') => some (s', some x')) with
      | none => none
      | some (s', xo) =>
        match rwObjKey f s' tl k rest with
        | none => none
        | some (s'', tl') =>
          some (s'', match xo with | some x' => (k', x') :: tl' | none => tl')
    else
      match rwObjKey f s tl k rest with
      | none => none
      | some (s', tl') => some (s', (k', x) :: tl')

/-- Rebuild of an object's entries for a wildcard step. -/
def rwObjAll (f : σ → JV α → Option (σ × Option (JV α))) (s : σ)
    (m : List (List Char × JV α)) (rest : List Step) :
    Option (σ × List (List Char × JV α)) :=
  match m with
  | [] => some (s, [])
  | (k', x) :: tl =>
    match (match rest with
           | [] => f s x
           | r :: rs =>
             match rwV f s x (r :: rs) with
             | none => none
             | some (s', x') => some (s', some x')) with
    | none => none
    | some (s', xo) =>
      match rwObjAll f s' tl rest with
      | none => none
      | some (s'', tl') =>
        some (s'', match xo with | some x' => (k', x') :: tl' | none => tl')

/-- Rebuild of an array's elements for an index step. -/
def rwArrIdx (f : σ → JV α → Option (σ × Option (JV α))) (s : σ)
    (xs : List (JV α)) (i : Nat) (rest : List Step) :
    Option (σ × List (JV α)) :=
  match xs, i with
  | [], _ => some (s, [])
  | x :: tl, 0 =>
    match (match rest with
           | [] => f s x
           | r :: rs =>
             match rwV f s x (r :: rs) with
             | none => none
             | some (s', x') => some (s', some x')) with
    | none => none
    | some (s', xo) =>
      some (s', match xo with | some x' => x' :: tl | none => tl)
  | x :: tl, i + 1 =>
    match rwArrIdx f s tl i rest with
    | none => none
    | some (s', tl') => some (s', x :: tl')

/-- Rebuild of an array's elements for a wildcard step. -/
def rwArrAll (f : σ → JV α → Option (σ × Option (JV α))) (s : σ)
    (xs : List (JV α)) (rest : List Step) :
    Option (σ × List (JV α)) :=
  match xs with
  | [] => some (s, [])
  | x :: tl =>
    match (match rest with
           | [] => f s x
           | r :: rs =>
             match rwV f s x (r :: rs) with
             | none => none
             | some (s', x') => some (s', some x')) with
    | none => none
    | some (s', xo) =>
      match rwArrAll f s' tl rest with
      | none => none
      | some (s'', tl') =>
        some (s'', match xo with | some x' => x' :: tl' | none => tl')

end

mutual

/-- Stateless, total rebuild (used to state what the stateful engine
does to the tree): every match `x` is replaced by `g x` (removed when
`none`). -/
def rwpV (g : JV α → Option (JV α)) (v : JV α) (path : List Step) : JV α :=
  match v, path with
  | v, [] => v
  | .obj m, .key k :: rest => .obj (rwpObjKey g m k rest)
  | .obj m, .wild :: rest => .obj (rwpObjAll g m rest)
  | .arr xs, .idx i :: rest => .arr (rwpArrIdx g xs i rest)
  | .arr xs, .wild :: rest => .arr (rwpArrAll g xs rest)
  | v, _ => v

/-- Pure rebuild of an object's entries for a member step. -/
def rwpObjKey (g : JV α → Option (JV α)) (m : List (List Char × JV α))
    (k : List Char) (rest : List Step) : List (List Char × JV α) :=
  match m with
  | [] => []
  | (k', x) :: tl =>
    if k' = k then
      match (match rest with
             | [] => g x
             | r :: rs => some (rwpV g x (r :: rs))) with
      | some x' => (k', x') :: rwpObjKey g tl k rest
      | none => rwpObjKey g tl k rest
    else (k', x) :: rwpObjKey g tl k rest

/-- Pure rebuild of an object's entries for a wildcard step. -/
def rwpObjAll (g : JV α → Option (JV α)) (m : List (List Char × JV α))
    (rest : List Step) : List (List Char × JV α) :=
  match m with
  | [] => []
  | (k', x) :: tl =>
    match (match rest with
           | [] => g x
           | r :: rs => some (rwpV g x (r :: rs))) with
    | some x' => (k', x') :: rwpObjAll g tl rest
    | none => rwpObjAll g tl rest

/-- Pure rebuild of an array's elements for an index step. -/
def rwpArrIdx (g : JV α → Option (JV α)) (xs : List (JV α)) (i : Nat)
    (rest : List Step) : List (JV α) :=
  match xs, i with
  | [], _ => []
  | x :: tl, 0 =>
    match (match rest with
           | [] => g x
           | r :: rs => some (rwpV g x (r :: rs))) with
    | some x' => x' :: tl
    | none => tl
  | x :: tl, i + 1 => x :: rwpArrIdx g tl i rest

/-- Pure rebuild of an array's elements for a wildcard step. -/
def rwpArrAll (g : JV α → Option (JV α)) (xs : List (JV α)) (rest : List Step) :
    List (JV α) :=
  match xs with
  | [] => []
  | x :: tl =>
    match (match rest with
           | [] => g x
           | r :: rs => some (rwpV g x (r :: rs))) with
    | some x' => x' :: rwpArrAll g tl rest
    | none => rwpArrAll g tl rest

end

/-! ## `RedisJSON` document operations (`src/redisjson.rs`) -/

/-- `Value::is_null`. -/
def JV.isNull : JV α → Bool
  | .null => true
  | _ => false

/-- `RedisJSON::value_name`. -/
def valueName : JV α → String
  | .null => "null"
  | .bool _ => "boolean"
  | .num _ => "number"
  | .str _ => "string"
  | .arr _ => "array"
  | .obj _ => "object"

/-- `err_json` of `src/lib.rs`. -/
def errJson (v : JV α) (expected : String) : String :=
  "ERR wrong type of path value - expected " ++ expected ++ " but found " ++ valueName v

/-- `serde_json::Map::contains_key`. -/
def containsKey (m : List (List Char × JV α)) (k : List Char) : Bool :=
  m.any (fun e => e.1 = k)

/-- `serde_json::Map::insert` of an absent key (the `preserve_order`
map appends; `add_value` only inserts when the key is absent). -/
def mapInsert (m : List (List Char × JV α)) (k : List Char) (v : JV α) :
    List (List Char × JV α) :=
  m ++ [(k, v)]

/-- `SetOptions` of `src/redisjson.rs`. -/
inductive SetOptions where
  | notExists
  | alreadyExists
  | noneOpt
deriving DecidableEq

/-- `NodeVisitorImpl::check`.  Modelled from the spec: the
`nodevisitor` module is not under `src/`; a "static" path is one
without multi-match wildcards, and `add_value`'s textual
`rsplitn(2, '.')` split of the last member name is modelled by
requiring the final step to be a member step (`splitLastKey`). -/
def staticPathCheck (path : List Step) : Bool :=
  path.all (fun st => match st with | .wild => false | _ => true)

/-- The structural counterpart of `path.rsplitn(2, '.')`: the leading
steps and the final member name. -/
def splitLastKey (path : List Step) : Option (List Step × List Char) :=
  match path.getLast? with
  | some (.key k) => some (path.dropLast, k)
  | _ => none

/-- `RedisJSON::add_value`: insert-if-absent of a new object member.
Returns the source's `set` flag together with the document after the
call (`self.data` is rebuilt in place).  The `splitLastKey` failure
branch stands for paths whose final segment is not a plain member name
(the textual source would misbehave there; no claim reaches it). -/
def addValue (doc : JV α) (path : List Step) (value : JV α) :
    Except String Bool × JV α :=
  if staticPathCheck path then
    match splitLastKey path with
    | none => (.error "Err: wrong static path", doc)
    | some (pre, k) =>
      if pre = [] then
        match doc with
        | .obj m =>
          if containsKey m k then (.ok false, .obj m)
          else (.ok true, .obj (mapInsert m k value))
        | d => (.ok false, d)
      else
        let pr := (rwV (fun set ret =>
            match ret with
            | .obj m =>
              if containsKey m k then some (false, some (.obj m))
              else some (true, some (.obj (mapInsert m k value)))
            | ret => some (set, some ret)) false doc pre).getD (false, doc)
        (.ok pr.1, pr.2)
  else (.error "Err: wrong static path", doc)

/-- `RedisJSON::set_value`: parse the payload, then either replace the
root, or rebuild with every match replaced, falling back to
`add_value`.  Returns the source's `Result<bool>` with the document
after the call. -/
def setValue (M : NumModel α) (doc : JV α) (data : List Char) (path : List Step)
    (opt : SetOptions) : Except String Bool × JV α :=
  match parseStr M data with
  | .error e => (.error e, doc)
  | .ok json =>
    if path = [] then
      if opt = .notExists then (.ok false, doc)
      else (.ok true, json)
    else
      let pr :=
        if opt = .notExists then (false, doc)
        else
          (rwV (fun (_ : Bool) (_ : JV α) => some (true, some json)) false doc path).getD
            (false, doc)
      if pr.1 then (.ok true, pr.2)
      else if opt = .alreadyExists then (.ok false, pr.2)
      else addValue pr.2 path json

/-- `RedisJSON::delete_path`: remove every match, counting the non-null
ones. -/
def deletePath (doc : JV α) (path : List Step) : Nat × JV α :=
  (rwV (fun (deleted : Nat) v =>
      some ((if v.isNull then deleted else deleted + 1), none)) 0 doc path).getD (0, doc)

/-- `RedisJSON::get_doc`: first match or "path does not exist". -/
def getDoc (doc : JV α) (path : List Step) : Except String (JV α) :=
  match selV doc path with
  | [] => .error "ERR path does not exist"
  | v :: _ => .ok v

mutual

/-- Structural equality of values (`serde_json::Value: PartialEq`),
used for the `ARRINDEX` needle comparison.  (The source's map equality
is order-insensitive, but objects are compared only against a scalar
needle, where both sides agree on `false`.) -/
def beqJV [DecidableEq α] : JV α → JV α → Bool
  | .null, .null => true
  | .bool a, .bool b => a = b
  | .num a, .num b => a = b
  | .str a, .str b => a = b
  | .arr a, .arr b => beqArr a b
  | .obj a, .obj b => beqObj a b
  | _, _ => false

/-- Elementwise equality of arrays. -/
def beqArr [DecidableEq α] : List (JV α) → List (JV α) → Bool
  | [], [] => true
  | a :: as', b :: bs' => beqJV a b && beqArr as' bs'
  | _, _ => false

/-- Entrywise equality of objects. -/
def beqObj [DecidableEq α] : List (List Char × JV α) → List (List Char × JV α) → Bool
  | [], [] => true
  | (ka, a) :: as', (kb, b) :: bs' => ka = kb && (beqJV a b && beqObj as' bs')
  | _, _ => false

end

/-- Wrapping `usize` decrement (`n - 1` in release-mode Rust, which
wraps to `2^64 - 1` at `n = 0`). -/
def wsub1 (n : Nat) : Nat := (n + (2 ^ 64 - 1)) % 2 ^ 64

/-- `RedisJSON::arr_index`: resolve the path, parse the needle, scan
the clamped inclusive range.  The slice `&arr[start..=end]` panics
(`none`) when `end + 1` exceeds the length — which happens for every
empty array, where `arr.len() - 1` wraps. -/
def arrIndex (M : NumModel α) [DecidableEq α] (doc : JV α) (path : List Step)
    (scalar : List Char) (start end0 : Nat) : Option (Except String Int) :=
  match getDoc doc path with
  | .ok (.arr arr) =>
    match parseStr M scalar with
    | .error e => some (.error e)
    | .ok (.arr _) => some (.ok (-1))
    | .ok (.obj _) => some (.ok (-1))
    | .ok v =>
      let start1 := max start 0
      let end1 := min end0 (wsub1 arr.length)
      let start2 := min end1 start1
      if end1 + 1 ≤ arr.length ∧ start2 ≤ end1 + 1 then
        match ((arr.drop start2).take (end1 + 1 - start2)).findIdx? (fun r => beqJV r v) with
        | some i => some (.ok ((start2 + i : Nat) : Int))
        | none => some (.ok (-1))
      else none
  | .ok _ => some (.ok (-1))
  | .error e => some (.error e)

/-- The state accumulated by `value_op`'s `collect_fun`: the closure's
own captured state, the collected error messages, and the last
successful result. -/
def collectF (f : τ → JV α → Option (τ × Except String (JV α))) :
    (τ × List String × JV α) → JV α →
    Option ((τ × List String × JV α) × Option (JV α)) :=
  fun s v =>
    match f s.1 v with
    | none => none
    | some (t', .ok w) => some ((t', s.2.1, w), some w)
    | some (t', .error e) => some ((t', s.2.1 ++ [e], s.2.2), some v)

/-- `value_op`'s error aggregation: no failure reports the last
result, exactly one failure is surfaced verbatim, several failures are
concatenated into one compound message. -/
def finishOp (errs : List String) (res : JV α) : Except String (JV α) :=
  match errs with
  | [] => .ok res
  | [e] => .error e
  | es => .error (String.join es)

/-- `RedisJSON::value_op`: apply a (stateful, possibly panicking)
transform at the root, or at every match of a non-root path via the
rebuild engine, keeping a failed match's original value; aggregate the
failures.  Returns the command result, the document after the call
(`self.data` is reassigned before aggregation) and the closure state. -/
def valueOp (f : τ → JV α → Option (τ × Except String (JV α))) (t0 : τ)
    (v : JV α) (path : List Step) :
    Option (Except String (JV α) × JV α × τ) :=
  if path = [] then
    match f t0 v with
    | none => none
    | some (t', .ok w) => some (.ok w, w, t')
    | some (t', .error e) => some (.error e, v, t')
  else
    match rwV (collectF f) (t0, [], JV.null) v path with
    | none => none
    | some ((t, errs, res), v') => some (finishOp errs res, v', t)

/-! ## Command layer (`src/lib.rs`)

Commands operate on a single-key store `Option (JV α)` (`None` = key
absent); the host's key lookup and locking are external.  A command
returns its reply (or error) together with the store content after the
call. -/

/-- Reply shapes the modelled commands produce.  `val` stands for the
external `RedisValue` conversion of a raw `serde_json::Value`
(`v.into()`). -/
inductive Reply (α : Type) where
  | okSimple
  | nilReply
  | intReply (n : Int)
  | bulk (s : List Char)
  | val (v : JV α)

/-- The `[NX | XX]` argument of `JSON.SET` (`SetOptions` of
`src/lib.rs`). -/
inductive SetFlag where
  | nx
  | xx
deriving DecidableEq

/-- Conversion of the parsed command flag into the document-layer
option. -/
def flagToOpt : Option SetFlag → SetOptions
  | some .nx => .notExists
  | some .xx => .alreadyExists
  | none => .noneOpt

/-- `JSON.DEL` (`json_del`): root path drops the key and replies 1,
non-root paths delete the matches and reply the count; an absent key
replies 0. -/
def jsonDel (store : Option (JV α)) (path : List Step) : Reply α × Option (JV α) :=
  match store with
  | none => (.intReply 0, none)
  | some doc =>
    if path = [] then (.intReply 1, none)
    else
      let dp := deletePath doc path
      (.intReply (dp.1 : Int), some dp.2)

/-- `JSON.SET` (`json_set`): guard no-ops reply nil without touching
the store; an existing key goes through `set_value`; a brand-new key
only accepts the root path. -/
def jsonSet (M : NumModel α) (store : Option (JV α)) (path : List Step)
    (value : List Char) (flag : Option SetFlag) :
    Except String (Reply α) × Option (JV α) :=
  match store, flag with
  | some doc, some .nx => (.ok .nilReply, some doc)
  | some doc, f =>
    let sv := setValue M doc value path (flagToOpt f)
    match sv.1 with
    | .ok _ => (.ok .okSimple, some sv.2)
    | .error e => (.error e, some sv.2)
  | none, some .xx => (.ok .nilReply, none)
  | none, _ =>
    match parseStr M value with
    | .error e => (.error e, none)
    | .ok json =>
      if path = [] then (.ok .okSimple, some json)
      else (.error "ERR new objects must be created at the root", none)

/-- The per-match transform of `json_num_op`: the target must be a
number (`as_f64`), the double-precision result must be finite
(`Number::from_f64`). -/
def numOpTransform (isFin : α → Bool) (f : α → α → α) (number : α) (value : JV α) :
    Except String (JV α) :=
  match value with
  | .num v =>
    if isFin (f v number) then .ok (.num (f v number))
    else .error "ERR cannot represent result as Number"
  | v => .error (errJson v "number")

/-- Lift a pure, total per-match transform (the shape `json_num_op`
and `json_str_append`/`json_arr_append` use) into the stateful form
`value_op` takes. -/
def liftPure (g : JV α → Except String (JV α)) :
    Unit → JV α → Option (Unit × Except String (JV α)) :=
  fun _ v => some ((), g v)

/-- Message of `RedisError::nonexistent_key` (external constant of the
`redismodule` crate). -/
def noKeyErr : String := "ERR could not perform this operation on a key that doesn't exist"

/-- `json_num_op`, shared by `JSON.NUMINCRBY`, `JSON.NUMMULTBY` and
`JSON.NUMPOWBY`: apply the binary operation at every match and reply
the resulting value. -/
def jsonNumOp (isFin : α → Bool) (f : α → α → α) (number : α)
    (store : Option (JV α)) (path : List Step) :
    Option (Except String (Reply α) × Option (JV α)) :=
  match store with
  | none => some (.error noKeyErr, none)
  | some doc =>
    match valueOp (liftPure (numOpTransform isFin f number)) () doc path with
    | none => none
    | some (.ok v, d', _) => some (.ok (.val v), some d')
    | some (.error e, d', _) => some (.error e, some d')

/-- `JSON.NUMINCRBY` (`json_num_incrby`). -/
def jsonNumIncrby (FM : FloatModel α) :
    α → Option (JV α) → List Step → Option (Except String (Reply α) × Option (JV α)) :=
  jsonNumOp FM.isFinite FM.add

/-- `JSON.NUMMULTBY` (`json_num_multby`). -/
def jsonNumMultby (FM : FloatModel α) :
    α → Option (JV α) → List Step → Option (Except String (Reply α) × Option (JV α)) :=
  jsonNumOp FM.isFinite FM.mul

/-- `JSON.NUMPOWBY` (`json_num_powby`). -/
def jsonNumPowby (FM : FloatModel α) :
    α → Option (JV α) → List Step → Option (Except String (Reply α) × Option (JV α)) :=
  jsonNumOp FM.isFinite FM.powf

/-- The per-match transform of `json_str_append`: the target must be a
string; the source concatenates the raw argument text. -/
def strAppendTransform (json : List Char) (value : JV α) : Except String (JV α) :=
  match value with
  | .str curr => .ok (.str (curr ++ json))
  | v => .error (errJson v "string")

/-- `collect::<Result<Vec<Value>>>` over the parsed arguments of
`json_arr_append`. -/
def mapParse (M : NumModel α) : List (List Char) → Except String (List (JV α))
  | [] => .ok []
  | a :: rest =>
    match parseStr M a with
    | .error e => .error e
    | .ok v =>
      match mapParse M rest with
      | .error e => .error e
      | .ok vs => .ok (v :: vs)

/-- The per-match transform of `json_arr_append`: the target must be
an array; parse every argument and concatenate. -/
def arrAppendTransform (M : NumModel α) (args : List (List Char)) (value : JV α) :
    Except String (JV α) :=
  match value with
  | .arr curr =>
    match mapParse M args with
    | .error e => .error e
    | .ok items => .ok (.arr (curr ++ items))
  | v => .error (errJson v "array")

/-- The per-match transform of `json_arr_pop`.  The captured `index`
and `res` variables are mutated by the closure, so the state carries
them across matches: clamp the index from above to `len - 1`, count a
negative index from the end, and remove/return the element when the
result is in range.  (`curr.len() as i64` is exact for arrays below
`2^63` elements; `List.getD` stands for `Vec::remove`'s return value,
whose index is in bounds here.) -/
def arrPopTransform : (Int × JV α) → JV α → Option ((Int × JV α) × Except String (JV α)) :=
  fun s value =>
    match value with
    | .arr curr =>
      let i1 := min s.1 ((curr.length : Int) - 1)
      let i2 := if i1 < 0 then (curr.length : Int) + i1 else i1
      if i2 ≥ (curr.length : Int) ∨ i2 < 0 then
        some ((i2, s.2), .error "ERR index out of bounds")
      else
        some ((i2, curr.getD i2.toNat .null), .ok (.arr (curr.eraseIdx i2.toNat)))
    | v =>
      some (s, .error ("ERR wrong type of path value - expected a array but found "
        ++ valueName v))

/-- `JSON.ARRPOP` (`json_arr_pop`); a missing index argument is
`i64::MAX = 2^63 - 1`.  Replies the serialized popped value. -/
def jsonArrPop (M : NumModel α) (store : Option (JV α)) (path : List Step)
    (index : Int) : Option (Except String (Reply α) × Option (JV α)) :=
  match store with
  | none => some (.error noKeyErr, none)
  | some doc =>
    match valueOp arrPopTransform (index, JV.null) doc path with
    | none => none
    | some (.error e, d', _) => some (.error e, some d')
    | some (.ok _, d', t) => some (.ok (.bulk (serV M t.2)), some d')

/-- The per-match transform of `json_arr_trim`: clamp `stop` to
`len - 1` (wrapping on the empty array), pull `start` down to `stop`,
then take the slice `&curr[start..stop]` — exclusive of `stop`, and a
panic (`none`) when the wrapped `stop` exceeds the length. -/
def arrTrimTransform : (Nat × Nat) → JV α → Option ((Nat × Nat) × Except String (JV α)) :=
  fun s value =>
    match value with
    | .arr curr =>
      let start1 := max s.1 0
      let stop1 := min s.2 (wsub1 curr.length)
      let start2 := min stop1 start1
      if stop1 ≤ curr.length then
        some ((start2, stop1), .ok (.arr ((curr.drop start2).take (stop1 - start2))))
      else none
    | v =>
      some (s, .error ("ERR wrong type of path value - expected a array but found "
        ++ valueName v))

/-- `JSON.ARRTRIM` (`json_arr_trim`): replies the raw resulting value
(`value_op(..)?.into()`). -/
def jsonArrTrim (store : Option (JV α)) (path : List Step) (start stop : Nat) :
    Option (Except String (Reply α) × Option (JV α)) :=
  match store with
  | none => some (.error noKeyErr, none)
  | some doc =>
    match valueOp arrTrimTransform (start, stop) doc path with
    | none => none
    | some (.error e, d', _) => some (.error e, some d')
    | some (.ok v, d', _) => some (.ok (.val v), some d')

/-- `JSON.ARRINDEX` (`json_arr_index`): an absent key replies `-1`;
missing range arguments default to `0` and `usize::MAX = 2^64 - 1`. -/
def jsonArrIndex (M : NumModel α) [DecidableEq α] (store : Option (JV α))
    (path : List Step) (scalar : List Char) (start end0 : Nat) :
    Option (Except String (Reply α)) :=
  match store with
  | none => some (.ok (.intReply (-1)))
  | some doc =>
    match arrIndex M doc path scalar start end0 with
    | none => none
    | some (.ok i) => some (.ok (.intReply i))
    | some (.error e) => some (.error e)

/-! ## Persistence codec (`json_rdb_save` / `json_rdb_load`)

The host's `raw::save_string`/`load_string` round-trip one string
through the RDB stream, so the stream is modelled as that string. -/

/-- `json_rdb_save`: write the canonical serialized text of the root
value. -/
def jsonRdbSave (M : NumModel α) (doc : JV α) : List Char := serV M doc

/-- `json_rdb_load`: version 2 parses the stored text (`none` is the
`unwrap` panic on corrupt data); version 0 invokes the legacy
structural decoder (the `backward` module is not under `src/` —
Modelled from the spec as an abstract decoder argument); any other
version is the fatal `panic` (`none`). -/
def jsonRdbLoad (M : NumModel α) (legacy : List Char → JV α) (s : List Char)
    (encver : Int) : Option (JV α) :=
  if encver = 0 then some (legacy s)
  else if encver = 2 then
    match parseStr M s with
    | .ok v => some v
    | .error _ => none
  else none

/-! ## Executable toy instantiations (used for concrete evaluations) -/

/-- Decimal digit value. -/
def digCh (c : Char) : Option Nat :=
  if 48 ≤ c.toNat ∧ c.toNat ≤ 57 then some (c.toNat - 48) else none

/-- Consume a maximal run of decimal digits. -/
def natDigits : Nat → List Char → Nat × List Char
  | acc, [] => (acc, [])
  | acc, c :: rest =>
    match digCh c with
    | some d => natDigits (acc * 10 + d) rest
    | none => (acc, c :: rest)

/-- Integer-valued number model (decimal notation), for evaluating the
embedding on concrete documents. -/
def intNumModel : NumModel Int where
  ser := fun n => (toString n).toList
  parse := fun cs =>
    match cs with
    | [] => none
    | c :: rest =>
      if c = mns then
        match rest with
        | d :: _ =>
          match digCh d with
          | some _ => some (-((natDigits 0 rest).1 : Int), (natDigits 0 rest).2)
          | none => none
        | [] => none
      else
        match digCh c with
        | some _ => some (((natDigits 0 (c :: rest)).1 : Int), (natDigits 0 (c :: rest)).2)
        | none => none

/-- One-value number model (every number prints as `0`), for which the
round-trip laws are immediate. -/
def unitNumModel : NumModel Unit where
  ser := fun _ => ['0']
  parse := fun cs =>
    match cs with
    | c :: rest => if c = '0' then some ((), rest) else none
    | [] => none

/-- A toy instantiation of the double-precision operations: integers,
"finite" meaning magnitude below `2^10`. -/
def toyFloatModel : FloatModel Int where
  add := fun a b => a + b
  mul := fun a b => a * b
  powf := fun a b => a ^ b.toNat
  isFinite := fun n => decide (n.natAbs < 2 ^ 10)

-- sanity: scenario-style evaluations of the embedding
example :
    jsonSet intNumModel none [] ('5' :: []) none = (.ok .okSimple, some (JV.num 5)) := rfl

example :
    jsonDel (some (JV.obj [(['a'], JV.num (1 : Int))])) [Step.key ['a']]
      = (.intReply 1, some (JV.obj [])) := rfl

example :
    jsonNumIncrby toyFloatModel 2 (some (JV.obj [(['a'], JV.num 1)])) [Step.key ['a']]
      = some (.ok (.val (JV.num 3)), some (JV.obj [(['a'], JV.num 3)])) := rfl

example :
    jsonArrPop intNumModel (some (JV.arr [JV.num 1, JV.num 2, JV.num 3])) []
      (2 ^ 63 - 1)
      = some (.ok (.bulk ['3']), some (JV.arr [JV.num 1, JV.num 2])) := rfl

example :
    jsonArrTrim (some (JV.arr [JV.num (1 : Int), JV.num 2, JV.num 3])) [] 0 2
      = some (.ok (.val (JV.arr [JV.num 1, JV.num 2])),
          some (JV.arr [JV.num 1, JV.num 2])) := rfl

example :
    arrIndex intNumModel (JV.arr [JV.num 5, JV.num 7]) [] ['7'] 0 (2 ^ 64 - 1)
      = some (.ok 1) := rfl

/-! ## Engine lemmas -/

mutual

/-- Master lemma: for a total, pure transform (state update `u`,
output `g`), the stateful rebuild folds the state over the matches in
document order and rebuilds the tree pointwise.  (Stated for non-empty
paths: the engine is only entered with them; `value_op` handles the
root directly.) -/
theorem rwV_pure (u : σ → JV α → σ) (g : JV α → Option (JV α)) (s : σ) (v : JV α)
    (st : Step) (rest : List Step) :
    rwV (fun s v => some (u s v, g v)) s v (st :: rest) =
      some ((selV v (st :: rest)).foldl u s, rwpV g v (st :: rest)) := by
  cases v with
  | obj m =>
    cases st with
    | key k => simp [rwV, selV, rwpV, rwObjKey_pure u g s m k rest]
    | idx i => simp [rwV, selV, rwpV]
    | wild => simp [rwV, selV, rwpV, rwObjAll_pure u g s m rest]
  | arr xs =>
    cases st with
    | key k => simp [rwV, selV, rwpV]
    | idx i => simp [rwV, selV, rwpV, rwArrIdx_pure u g s xs i rest]
    | wild => simp [rwV, selV, rwpV, rwArrAll_pure u g s xs rest]
  | null => simp [rwV, selV, rwpV]
  | bool b => simp [rwV, selV, rwpV]
  | num n => simp [rwV, selV, rwpV]
  | str s' => simp [rwV, selV, rwpV]

/-- Master lemma, member-step object case. -/
theorem rwObjKey_pure (u : σ → JV α → σ) (g : JV α → Option (JV α)) (s : σ)
    (m : List (List Char × JV α)) (k : List Char) (rest : List Step) :
    rwObjKey (fun s v => some (u s v, g v)) s m k rest =
      some ((selObjKey m k rest).foldl u s, rwpObjKey g m k rest) := by
  cases m with
  | nil => simp [rwObjKey, selObjKey, rwpObjKey]
  | cons e tl =>
    obtain ⟨k', x⟩ := e
    by_cases hk : k' = k
    · subst hk
      cases rest with
      | nil =>
        cases hgx : g x with
        | some x' =>
          simp [rwObjKey, selObjKey, rwpObjKey, selV, hgx,
            rwObjKey_pure u g (u s x) tl k' []]
        | none =>
          simp [rwObjKey, selObjKey, rwpObjKey, selV, hgx,
            rwObjKey_pure u g (u s x) tl k' []]
      | cons r rs =>
        simp [rwObjKey, selObjKey, rwpObjKey, rwV_pure u g s x r rs,
          rwObjKey_pure u g ((selV x (r :: rs)).foldl u s) tl k' (r :: rs),
          List.foldl_append]
    · simp [rwObjKey, selObjKey, rwpObjKey, hk, rwObjKey_pure u g s tl k rest]

/-- Master lemma, wildcard object case. -/
theorem rwObjAll_pure (u : σ → JV α → σ) (g : JV α → Option (JV α)) (s : σ)
    (m : List (List Char × JV α)) (rest : List Step) :
    rwObjAll (fun s v => some (u s v, g v)) s m rest =
      some ((selObjAll m rest).foldl u s, rwpObjAll g m rest) := by
  cases m with
  | nil => simp [rwObjAll, selObjAll, rwpObjAll]
  | cons e tl =>
    obtain ⟨k', x⟩ := e
    cases rest with
    | nil =>
      cases hgx : g x with
      | some x' =>
        simp [rwObjAll, selObjAll, rwpObjAll, selV, hgx,
          rwObjAll_pure u g (u s x) tl []]
      | none =>
        simp [rwObjAll, selObjAll, rwpObjAll, selV, hgx,
          rwObjAll_pure u g (u s x) tl []]
    | cons r rs =>
      simp [rwObjAll, selObjAll, rwpObjAll, rwV_pure u g s x r rs,
        rwObjAll_pure u g ((selV x (r :: rs)).foldl u s) tl (r :: rs),
        List.foldl_append]

/-- Master lemma, index array case. -/
theorem rwArrIdx_pure (u : σ → JV α → σ) (g : JV α → Option (JV α)) (s : σ)
    (xs : List (JV α)) (i : Nat) (rest : List Step) :
    rwArrIdx (fun s v => some (u s v, g v)) s xs i rest =
      some ((selArrIdx xs i rest).foldl u s, rwpArrIdx g xs i rest) := by
  cases xs with
  | nil => simp [rwArrIdx, selArrIdx, rwpArrIdx]
  | cons x tl =>
    cases i with
    | zero =>
      cases rest with
      | nil =>
        cases hgx : g x with
        | some x' => simp [rwArrIdx, selArrIdx, rwpArrIdx, selV, hgx]
        | none => simp [rwArrIdx, selArrIdx, rwpArrIdx, selV, hgx]
      | cons r rs =>
        simp [rwArrIdx, selArrIdx, rwpArrIdx, rwV_pure u g s x r rs]
    | succ j =>
      simp [rwArrIdx, selArrIdx, rwpArrIdx, rwArrIdx_pure u g s tl j rest]

/-- Master lemma, wildcard array case. -/
theorem rwArrAll_pure (u : σ → JV α → σ) (g : JV α → Option (JV α)) (s : σ)
    (xs : List (JV α)) (rest : List Step) :
    rwArrAll (fun s v => some (u s v, g v)) s xs rest =
      some ((selArrAll xs rest).foldl u s, rwpArrAll g xs rest) := by
  cases xs with
  | nil => simp [rwArrAll, selArrAll, rwpArrAll]
  | cons x tl =>
    cases rest with
    | nil =>
      cases hgx : g x with
      | some x' =>
        simp [rwArrAll, selArrAll, rwpArrAll, selV, hgx,
          rwArrAll_pure u g (u s x) tl []]
      | none =>
        simp [rwArrAll, selArrAll, rwpArrAll, selV, hgx,
          rwArrAll_pure u g (u s x) tl []]
    | cons r rs =>
      simp [rwArrAll, selArrAll, rwpArrAll, rwV_pure u g s x r rs,
        rwArrAll_pure u g ((selV x (r :: rs)).foldl u s) tl (r :: rs),
        List.foldl_append]

end

mutual

/-- If a (non-root) path matches nothing, the rebuild never invokes the
transform: it succeeds with the state and tree unchanged. -/
theorem rwV_noMatch (f : σ → JV α → Option (σ × Option (JV α))) (s : σ) (v : JV α)
    (st : Step) (rest : List Step) (h : selV v (st :: rest) = []) :
    rwV f s v (st :: rest) = some (s, v) := by
  cases v with
  | obj m =>
    cases st with
    | key k =>
      simp only [selV] at h
      simp [rwV, rwObjKey_noMatch f s m k rest h]
    | idx i => simp [rwV]
    | wild =>
      simp only [selV] at h
      simp [rwV, rwObjAll_noMatch f s m rest h]
  | arr xs =>
    cases st with
    | key k => simp [rwV]
    | idx i =>
      simp only [selV] at h
      simp [rwV, rwArrIdx_noMatch f s xs i rest h]
    | wild =>
      simp only [selV] at h
      simp [rwV, rwArrAll_noMatch f s xs rest h]
  | null => simp [rwV]
  | bool b => simp [rwV]
  | num n => simp [rwV]
  | str s' => simp [rwV]

/-- No-match lemma, member-step object case. -/
theorem rwObjKey_noMatch (f : σ → JV α → Option (σ × Option (JV α))) (s : σ)
    (m : List (List Char × JV α)) (k : List Char) (rest : List Step)
    (h : selObjKey m k rest = []) :
    rwObjKey f s m k rest = some (s, m) := by
  cases m with
  | nil => simp [rwObjKey]
  | cons e tl =>
    obtain ⟨k', x⟩ := e
    by_cases hk : k' = k
    · subst hk
      simp only [selObjKey, if_pos, List.append_eq_nil] at h
      cases rest with
      | nil => simp [selV] at h
      | cons r rs =>
        simp [rwObjKey, rwV_noMatch f s x r rs h.1,
          rwObjKey_noMatch f s tl k' (r :: rs) h.2]
    · simp only [selObjKey, if_neg hk, List.nil_append] at h
      simp [rwObjKey, hk, rwObjKey_noMatch f s tl k rest h]

/-- No-match lemma, wildcard object case. -/
theorem rwObjAll_noMatch (f : σ → JV α → Option (σ × Option (JV α))) (s : σ)
    (m : List (List Char × JV α)) (rest : List Step)
    (h : selObjAll m rest = []) :
    rwObjAll f s m rest = some (s, m) := by
  cases m with
  | nil => simp [rwObjAll]
  | cons e tl =>
    obtain ⟨k', x⟩ := e
    simp only [selObjAll, List.append_eq_nil] at h
    cases rest with
    | nil => simp [selV] at h
    | cons r rs =>
      simp [rwObjAll, rwV_noMatch f s x r rs h.1,
        rwObjAll_noMatch f s tl (r :: rs) h.2]

/-- No-match lemma, index array case. -/
theorem rwArrIdx_noMatch (f : σ → JV α → Option (σ × Option (JV α))) (s : σ)
    (xs : List (JV α)) (i : Nat) (rest : List Step)
    (h : selArrIdx xs i rest = []) :
    rwArrIdx f s xs i rest = some (s, xs) := by
  cases xs with
  | nil => simp [rwArrIdx]
  | cons x tl =>
    cases i with
    | zero =>
      simp only [selArrIdx] at h
      cases rest with
      | nil => simp [selV] at h
      | cons r rs => simp [rwArrIdx, rwV_noMatch f s x r rs h]
    | succ j =>
      simp only [selArrIdx] at h
      simp [rwArrIdx, rwArrIdx_noMatch f s tl j rest h]

/-- No-match lemma, wildcard array case. -/
theorem rwArrAll_noMatch (f : σ → JV α → Option (σ × Option (JV α))) (s : σ)
    (xs : List (JV α)) (rest : List Step)
    (h : selArrAll xs rest = []) :
    rwArrAll f s xs rest = some (s, xs) := by
  cases xs with
  | nil => simp [rwArrAll]
  | cons x tl =>
    simp only [selArrAll, List.append_eq_nil] at h
    cases rest with
    | nil => simp [selV] at h
    | cons r rs =>
      simp [rwArrAll, rwV_noMatch f s x r rs h.1,
        rwArrAll_noMatch f s tl (r :: rs) h.2]

end

mutual

/-- The pure rebuild only depends on the transform's values at the
matches. -/
theorem rwpV_congr (g g' : JV α → Option (JV α)) (v : JV α) (st : Step)
    (rest : List Step) (h : ∀ w ∈ selV v (st :: rest), g w = g' w) :
    rwpV g v (st :: rest) = rwpV g' v (st :: rest) := by
  cases v with
  | obj m =>
    cases st with
    | key k =>
      simp only [selV] at h
      simp [rwpV, rwpObjKey_congr g g' m k rest h]
    | idx i => simp [rwpV]
    | wild =>
      simp only [selV] at h
      simp [rwpV, rwpObjAll_congr g g' m rest h]
  | arr xs =>
    cases st with
    | key k => simp [rwpV]
    | idx i =>
      simp only [selV] at h
      simp [rwpV, rwpArrIdx_congr g g' xs i rest h]
    | wild =>
      simp only [selV] at h
      simp [rwpV, rwpArrAll_congr g g' xs rest h]
  | null => simp [rwpV]
  | bool b => simp [rwpV]
  | num n => simp [rwpV]
  | str s' => simp [rwpV]

/-- Congruence, member-step object case. -/
theorem rwpObjKey_congr (g g' : JV α → Option (JV α)) (m : List (List Char × JV α))
    (k : List Char) (rest : List Step)
    (h : ∀ w ∈ selObjKey m k rest, g w = g' w) :
    rwpObjKey g m k rest = rwpObjKey g' m k rest := by
  cases m with
  | nil => simp [rwpObjKey]
  | cons e tl =>
    obtain ⟨k', x⟩ := e
    by_cases hk : k' = k
    · subst hk
      simp only [selObjKey, if_pos, List.mem_append] at h
      cases rest with
      | nil =>
        have hx : g x = g' x := h x (Or.inl (by simp [selV]))
        have htl : ∀ w ∈ selObjKey tl k' [], g w = g' w := fun w hw => h w (Or.inr hw)
        simp [rwpObjKey, hx, rwpObjKey_congr g g' tl k' [] htl]
      | cons r rs =>
        have hx : ∀ w ∈ selV x (r :: rs), g w = g' w := fun w hw => h w (Or.inl hw)
        have htl : ∀ w ∈ selObjKey tl k' (r :: rs), g w = g' w := fun w hw => h w (Or.inr hw)
        simp [rwpObjKey, rwpV_congr g g' x r rs hx,
          rwpObjKey_congr g g' tl k' (r :: rs) htl]
    · simp only [selObjKey, if_neg hk, List.nil_append] at h
      simp [rwpObjKey, hk, rwpObjKey_congr g g' tl k rest h]

/-- Congruence, wildcard object case. -/
theorem rwpObjAll_congr (g g' : JV α → Option (JV α)) (m : List (List Char × JV α))
    (rest : List Step) (h : ∀ w ∈ selObjAll m rest, g w = g' w) :
    rwpObjAll g m rest = rwpObjAll g' m rest := by
  cases m with
  | nil => simp [rwpObjAll]
  | cons e tl =>
    obtain ⟨k', x⟩ := e
    simp only [selObjAll, List.mem_append] at h
    cases rest with
    | nil =>
      have hx : g x = g' x := h x (Or.inl (by simp [selV]))
      have htl : ∀ w ∈ selObjAll tl [], g w = g' w := fun w hw => h w (Or.inr hw)
      simp [rwpObjAll, hx, rwpObjAll_congr g g' tl [] htl]
    | cons r rs =>
      have hx : ∀ w ∈ selV x (r :: rs), g w = g' w := fun w hw => h w (Or.inl hw)
      have htl : ∀ w ∈ selObjAll tl (r :: rs), g w = g' w := fun w hw => h w (Or.inr hw)
      simp [rwpObjAll, rwpV_congr g g' x r rs hx, rwpObjAll_congr g g' tl (r :: rs) htl]

/-- Congruence, index array case. -/
theorem rwpArrIdx_congr (g g' : JV α → Option (JV α)) (xs : List (JV α)) (i : Nat)
    (rest : List Step) (h : ∀ w ∈ selArrIdx xs i rest, g w = g' w) :
    rwpArrIdx g xs i rest = rwpArrIdx g' xs i rest := by
  cases xs with
  | nil => simp [rwpArrIdx]
  | cons x tl =>
    cases i with
    | zero =>
      simp only [selArrIdx] at h
      cases rest with
      | nil =>
        have hx : g x = g' x := h x (by simp [selV])
        simp [rwpArrIdx, hx]
      | cons r rs => simp [rwpArrIdx, rwpV_congr g g' x r rs h]
    | succ j =>
      simp only [selArrIdx] at h
      simp [rwpArrIdx, rwpArrIdx_congr g g' tl j rest h]

/-- Congruence, wildcard array case. -/
theorem rwpArrAll_congr (g g' : JV α → Option (JV α)) (xs : List (JV α))
    (rest : List Step) (h : ∀ w ∈ selArrAll xs rest, g w = g' w) :
    rwpArrAll g xs rest = rwpArrAll g' xs rest := by
  cases xs with
  | nil => simp [rwpArrAll]
  | cons x tl =>
    simp only [selArrAll, List.mem_append] at h
    cases rest with
    | nil =>
      have hx : g x = g' x := h x (Or.inl (by simp [selV]))
      have htl : ∀ w ∈ selArrAll tl [], g w = g' w := fun w hw => h w (Or.inr hw)
      simp [rwpArrAll, hx, rwpArrAll_congr g g' tl [] htl]
    | cons r rs =>
      have hx : ∀ w ∈ selV x (r :: rs), g w = g' w := fun w hw => h w (Or.inl hw)
      have htl : ∀ w ∈ selArrAll tl (r :: rs), g w = g' w := fun w hw => h w (Or.inr hw)
      simp [rwpArrAll, rwpV_congr g g' x r rs hx, rwpArrAll_congr g g' tl (r :: rs) htl]

end

mutual

/-- Rebuilding with the identity transform leaves the tree unchanged. -/
theorem rwpV_id (v : JV α) (st : Step) (rest : List Step) :
    rwpV (fun w => some w) v (st :: rest) = v := by
  cases v with
  | obj m =>
    cases st with
    | key k => simp [rwpV, rwpObjKey_id m k rest]
    | idx i => simp [rwpV]
    | wild => simp [rwpV, rwpObjAll_id m rest]
  | arr xs =>
    cases st with
    | key k => simp [rwpV]
    | idx i => simp [rwpV, rwpArrIdx_id xs i rest]
    | wild => simp [rwpV, rwpArrAll_id xs rest]
  | null => simp [rwpV]
  | bool b => simp [rwpV]
  | num n => simp [rwpV]
  | str s' => simp [rwpV]

/-- Identity rebuild, member-step object case. -/
theorem rwpObjKey_id (m : List (List Char × JV α)) (k : List Char) (rest : List Step) :
    rwpObjKey (fun w => some w) m k rest = m := by
  cases m with
  | nil => simp [rwpObjKey]
  | cons e tl =>
    obtain ⟨k', x⟩ := e
    by_cases hk : k' = k
    · subst hk
      cases rest with
      | nil => simp [rwpObjKey, rwpObjKey_id tl k' []]
      | cons r rs => simp [rwpObjKey, rwpV_id x r rs, rwpObjKey_id tl k' (r :: rs)]
    · simp [rwpObjKey, hk, rwpObjKey_id tl k rest]

/-- Identity rebuild, wildcard object case. -/
theorem rwpObjAll_id (m : List (List Char × JV α)) (rest : List Step) :
    rwpObjAll (fun w => some w) m rest = m := by
  cases m with
  | nil => simp [rwpObjAll]
  | cons e tl =>
    obtain ⟨k', x⟩ := e
    cases rest with
    | nil => simp [rwpObjAll, rwpObjAll_id tl []]
    | cons r rs => simp [rwpObjAll, rwpV_id x r rs, rwpObjAll_id tl (r :: rs)]

/-- Identity rebuild, index array case. -/
theorem rwpArrIdx_id (xs : List (JV α)) (i : Nat) (rest : List Step) :
    rwpArrIdx (fun w => some w) xs i rest = xs := by
  cases xs with
  | nil => simp [rwpArrIdx]
  | cons x tl =>
    cases i with
    | zero =>
      cases rest with
      | nil => simp [rwpArrIdx]
      | cons r rs => simp [rwpArrIdx, rwpV_id x r rs]
    | succ j => simp [rwpArrIdx, rwpArrIdx_id tl j rest]

/-- Identity rebuild, wildcard array case. -/
theorem rwpArrAll_id (xs : List (JV α)) (rest : List Step) :
    rwpArrAll (fun w => some w) xs rest = xs := by
  cases xs with
  | nil => simp [rwpArrAll]
  | cons x tl =>
    cases rest with
    | nil => simp [rwpArrAll, rwpArrAll_id tl []]
    | cons r rs => simp [rwpArrAll, rwpV_id x r rs, rwpArrAll_id tl (r :: rs)]

end

/-- Rebuilding with a transform that keeps every match leaves the tree
unchanged. -/
theorem rwpV_id_of (g : JV α → Option (JV α)) (v : JV α) (st : Step)
    (rest : List Step) (h : ∀ w ∈ selV v (st :: rest), g w = some w) :
    rwpV g v (st :: rest) = v := by
  rw [rwpV_congr g (fun w => some w) v st rest h, rwpV_id]

/-! ## `value_op` characterization -/

/-- The failures a pure transform produces on a list of matches, in
order. -/
def errsOf (g : JV α → Except String (JV α)) (ms : List (JV α)) : List String :=
  ms.filterMap (fun m => match g m with | .error e => some e | .ok _ => none)

/-- The last successful result of a pure transform over a list of
matches (`value_op`'s `result`, starting from `Null`). -/
def resFold (g : JV α → Except String (JV α)) (r0 : JV α) (ms : List (JV α)) : JV α :=
  ms.foldl (fun r m => match g m with | .ok w => w | .error _ => r) r0

/-- What a pure transform does to the tree at each match: the new value
on success, the original value on failure. -/
def appOf (g : JV α → Except String (JV α)) : JV α → Option (JV α) :=
  fun m => some (match g m with | .ok w => w | .error _ => m)

/-- The state update of `collect_fun` for a pure transform. -/
def collectStep (g : JV α → Except String (JV α)) :
    (Unit × List String × JV α) → JV α → (Unit × List String × JV α) :=
  fun s v =>
    match g v with
    | .ok w => ((), s.2.1, w)
    | .error e => ((), s.2.1 ++ [e], s.2.2)

/-- `collect_fun` over a lifted pure transform is a pure engine
transform. -/
theorem collectF_liftPure (g : JV α → Except String (JV α)) :
    collectF (liftPure g) =
      fun s v => some (collectStep g s v, appOf g v) := by
  funext s v
  cases hv : g v <;> simp [collectF, liftPure, collectStep, appOf, hv]

/-- Folding `collect_fun`'s state over the matches accumulates exactly
the failures (in order) and the last success. -/
theorem foldl_collect (g : JV α → Except String (JV α)) (ms : List (JV α))
    (errs0 : List String) (r0 : JV α) :
    ms.foldl (collectStep g) ((), errs0, r0) = ((), errs0 ++ errsOf g ms, resFold g r0 ms) := by
  induction ms generalizing errs0 r0 with
  | nil => simp [errsOf, resFold]
  | cons m tl ih =>
    cases hm : g m <;> simp [errsOf, resFold, collectStep, hm, ih]

/-- `value_op` with a pure transform at a non-root path: the failures
of all matches are collected in order and aggregated by `finishOp`,
and the document is rebuilt with every successful match replaced and
every failed match kept. -/
theorem valueOp_pure (g : JV α → Except String (JV α)) (v : JV α) (st : Step)
    (rest : List Step) :
    valueOp (liftPure g) () v (st :: rest) =
      some (finishOp (errsOf g (selV v (st :: rest)))
              (resFold g JV.null (selV v (st :: rest))),
            rwpV (appOf g) v (st :: rest), ()) := by
  have h1 : collectF (liftPure g) = fun s v => some (collectStep g s v, appOf g v) :=
    collectF_liftPure g
  simp only [valueOp, h1, rwV_pure (collectStep g) (appOf g) ((), [], JV.null) v st rest]
  simp [foldl_collect g _ [] JV.null]

/-! ## Serializer/parser round trip -/

/-- Hex digits invert their values. -/
theorem hexVal_hexDig : ∀ n < 16, hexVal (hexDig n) = some n := by decide

/-- Unescaping a short escape code behind a backslash. -/
theorem pStrBody_esc (e ch : Char) (he : unescChar e = some ch) (hu : e ≠ 'u')
    (L : List Char) :
    pStrBody (bs :: e :: L) =
      match pStrBody L with
      | none => none
      | some (s, r) => some (ch :: s, r) := by
  rw [pStrBody.eq_def]
  simp [show ¬(bs = qu) by decide, he, hu]

/-- Unescaping a `u00XX` escape behind a backslash. -/
theorem pStrBody_u (hi lo : Nat) (hhi : hi < 16) (hlo : lo < 16)
    (hv : Nat.isValidChar (hi * 16 + lo)) (L : List Char) :
    pStrBody (bs :: 'u' :: '0' :: '0' :: hexDig hi :: hexDig lo :: L) =
      match pStrBody L with
      | none => none
      | some (s, r) => some (Char.ofNat (hi * 16 + lo) :: s, r) := by
  rw [pStrBody.eq_def]
  simp only [show ¬(bs = qu) by decide, if_neg, if_pos, show (bs = bs) = True by simp,
    if_true, show ('u' = 'u') = True by simp, ite_false, ite_true]
  rw [show hexVal '0' = some 0 from rfl, hexVal_hexDig hi hhi, hexVal_hexDig lo hlo]
  simp only [Nat.zero_mul, Nat.zero_add, Nat.mul_zero]
  rw [if_pos hv]

/-- The escaped form of any character parses back to that character. -/
theorem pStrBody_escapeChar (c : Char) (L : List Char) :
    pStrBody (escapeChar c ++ L) =
      match pStrBody L with
      | none => none
      | some (s, r) => some (c :: s, r) := by
  by_cases h1 : c = qu
  · subst h1
    rw [show escapeChar qu = [bs, qu] from rfl]
    rw [List.cons_append, List.cons_append, List.nil_append]
    exact pStrBody_esc qu qu rfl (by decide) L
  · by_cases h2 : c = bs
    · subst h2
      rw [show escapeChar bs = [bs, bs] from rfl]
      rw [List.cons_append, List.cons_append, List.nil_append]
      exact pStrBody_esc bs bs rfl (by decide) L
    · by_cases h3 : c.toNat < 32
      · have hofn : ∀ n : Nat, c.toNat = n → Char.ofNat n = c := by
          intro n hn
          rw [← hn]
          exact Char.ofNat_toNat c
        by_cases h8 : c.toNat = 8
        · rw [show escapeChar c = [bs, 'b'] by simp [escapeChar, h1, h2, h3, h8]]
          rw [List.cons_append, List.cons_append, List.nil_append]
          rw [pStrBody_esc 'b' c (by rw [show unescChar 'b' = some (Char.ofNat 8) from rfl, hofn 8 h8]) (by decide) L]
        · by_cases h9 : c.toNat = 9
          · rw [show escapeChar c = [bs, 't'] by simp [escapeChar, h1, h2, h3, h8, h9]]
            rw [List.cons_append, List.cons_append, List.nil_append]
            rw [pStrBody_esc 't' c (by rw [show unescChar 't' = some (Char.ofNat 9) from rfl, hofn 9 h9]) (by decide) L]
          · by_cases h10 : c.toNat = 10
            · rw [show escapeChar c = [bs, 'n'] by simp [escapeChar, h1, h2, h3, h8, h9, h10]]
              rw [List.cons_append, List.cons_append, List.nil_append]
              rw [pStrBody_esc 'n' c (by rw [show unescChar 'n' = some (Char.ofNat 10) from rfl, hofn 10 h10]) (by decide) L]
            · by_cases h12 : c.toNat = 12
              · rw [show escapeChar c = [bs, 'f'] by simp [escapeChar, h1, h2, h3, h8, h9, h10, h12]]
                rw [List.cons_append, List.cons_append, List.nil_append]
                rw [pStrBody_esc 'f' c (by rw [show unescChar 'f' = some (Char.ofNat 12) from rfl, hofn 12 h12]) (by decide) L]
              · by_cases h13 : c.toNat = 13
                · rw [show escapeChar c = [bs, 'r'] by simp [escapeChar, h1, h2, h3, h8, h9, h10, h12, h13]]
                  rw [List.cons_append, List.cons_append, List.nil_append]
                  rw [pStrBody_esc 'r' c (by rw [show unescChar 'r' = some (Char.ofNat 13) from rfl, hofn 13 h13]) (by decide) L]
                · rw [show escapeChar c
                      = [bs, 'u', '0', '0', hexDig (c.toNat / 16), hexDig (c.toNat % 16)] by
                    simp [escapeChar, h1, h2, h3, h8, h9, h10, h12, h13]]
                  simp only [List.cons_append, List.nil_append]
                  rw [pStrBody_u (c.toNat / 16) (c.toNat % 16) (by omega) (by omega)
                    (by left; omega)]
                  rw [show c.toNat / 16 * 16 + c.toNat % 16 = c.toNat by omega,
                    Char.ofNat_toNat]
      · rw [show escapeChar c = [c] by simp [escapeChar, h1, h2, h3]]
        rw [List.cons_append, List.nil_append, pStrBody.eq_def]
        simp [h1, h2]

/-- Round trip for string bodies: the escaped text followed by the
closing quote parses back to the original string. -/
theorem pStrBody_escStr (s : List Char) (rest : List Char) :
    pStrBody (escStr s ++ qu :: rest) = some (s, rest) := by
  induction s with
  | nil =>
    rw [escStr, List.nil_append, pStrBody.eq_def]
    simp
  | cons c s ih =>
    rw [escStr, List.append_assoc, pStrBody_escapeChar c (escStr s ++ qu :: rest), ih]

mutual

/-- Recursion depth the parser needs for a serialized value. -/
def fuelV : JV α → Nat
  | .null => 1
  | .bool _ => 1
  | .num _ => 1
  | .str _ => 1
  | .arr xs => 1 + max 1 (fuelItems xs)
  | .obj m => 1 + max 1 (fuelMembers m)

/-- Depth needed for the items of an array. -/
def fuelItems : List (JV α) → Nat
  | [] => 0
  | x :: xs => 1 + fuelV x + fuelItems xs

/-- Depth needed for the members of an object. -/
def fuelMembers : List (List Char × JV α) → Nat
  | [] => 0
  | (_, x) :: tl => 1 + fuelV x + fuelMembers tl

end

/-- Number serializations are non-empty (round-trip assumption on the
abstract number model). -/
def NMne (M : NumModel α) : Prop := ∀ a, M.ser a ≠ []

/-- Number serializations never begin with a character that belongs to
another token kind (round-trip assumption on the abstract number
model; `serde_json` numbers begin with a digit or a minus sign). -/
def NMhead (M : NumModel α) : Prop :=
  ∀ a c cs, M.ser a = c :: cs →
    c ≠ 'n' ∧ c ≠ 't' ∧ c ≠ 'f' ∧ c ≠ qu ∧ c ≠ lsb ∧ c ≠ lcb ∧ c ≠ rsb

/-- A serialized number parses back, leaving the remainder untouched
(round-trip assumption on the abstract number model). -/
def NMrt (M : NumModel α) : Prop :=
  ∀ a rest, M.parse (M.ser a ++ rest) = some (a, rest)

/-- Parser dispatch: `null`. -/
theorem pV_null (M : NumModel α) (fuel : Nat) (r : List Char) :
    pV M (fuel + 1) ('n' :: 'u' :: 'l' :: 'l' :: r) = some (.null, r) := rfl

/-- Parser dispatch: `true`. -/
theorem pV_true (M : NumModel α) (fuel : Nat) (r : List Char) :
    pV M (fuel + 1) ('t' :: 'r' :: 'u' :: 'e' :: r) = some (.bool true, r) := rfl

/-- Parser dispatch: `false`. -/
theorem pV_false (M : NumModel α) (fuel : Nat) (r : List Char) :
    pV M (fuel + 1) ('f' :: 'a' :: 'l' :: 's' :: 'e' :: r) = some (.bool false, r) := rfl

/-- Parser dispatch: strings. -/
theorem pV_qu (M : NumModel α) (fuel : Nat) (rest : List Char) :
    pV M (fuel + 1) (qu :: rest) =
      match pStrBody rest with
      | none => none
      | some (s, r) => some (.str s, r) := rfl

/-- Parser dispatch: arrays. -/
theorem pV_lsb (M : NumModel α) (fuel : Nat) (rest : List Char) :
    pV M (fuel + 1) (lsb :: rest) =
      (match pItems M fuel rest with
       | none => none
       | some (vs, r) => some (.arr vs, r)) := rfl

/-- Parser dispatch: objects. -/
theorem pV_lcb (M : NumModel α) (fuel : Nat) (rest : List Char) :
    pV M (fuel + 1) (lcb :: rest) =
      (match pMembers M fuel rest with
       | none => none
       | some (kvs, r) => some (.obj kvs, r)) := rfl

/-- Parser dispatch: the number fallback. -/
theorem pV_num (M : NumModel α) (fuel : Nat) (c : Char) (cs : List Char)
    (h1 : c ≠ 'n') (h2 : c ≠ 't') (h3 : c ≠ 'f') (h4 : c ≠ qu) (h5 : c ≠ lsb)
    (h6 : c ≠ lcb) :
    pV M (fuel + 1) (c :: cs) =
      match M.parse (c :: cs) with
      | none => none
      | some (a, r) => some (.num a, r) := by
  rw [pV.eq_def]
  simp [h1, h2, h3, h4, h5, h6]

/-- Every serialization is non-empty. -/
theorem serV_ne_nil (M : NumModel α) (hne : NMne M) (v : JV α) : serV M v ≠ [] := by
  cases v with
  | null => simp [serV, litNull, litTrue, litFalse]
  | bool b => cases b <;> simp [serV, litNull, litTrue, litFalse]
  | num a => exact hne a
  | str s => simp [serV, serStr]
  | arr xs => cases xs <;> simp [serV, litNull, litTrue, litFalse]
  | obj m =>
    cases m with
    | nil => simp [serV, litNull, litTrue, litFalse]
    | cons e tl => obtain ⟨k, x⟩ := e; simp [serV, litNull, litTrue, litFalse]

/-- The first character of a serialization is never a closing
bracket. -/
theorem serV_head_ne_rsb (M : NumModel α) (hh : NMhead M) (v : JV α) (c : Char)
    (cs : List Char) (h : serV M v = c :: cs) : c ≠ rsb := by
  cases v with
  | null => simp [serV, litNull, litTrue, litFalse] at h; rw [← h.1]; decide
  | bool b =>
    cases b <;> simp [serV, litNull, litTrue, litFalse] at h <;> rw [← h.1] <;> decide
  | num a => exact ((hh a c cs h).2).2.2.2.2.2
  | str s => simp [serV, serStr] at h; rw [← h.1]; decide
  | arr xs =>
    cases xs <;> simp [serV, litNull, litTrue, litFalse] at h <;> rw [← h.1] <;> decide
  | obj m =>
    cases m with
    | nil => simp [serV, litNull, litTrue, litFalse] at h; rw [← h.1]; decide
    | cons e tl =>
      obtain ⟨k, x⟩ := e
      simp [serV, litNull, litTrue, litFalse] at h
      rw [← h.1]
      decide

/-- Every value needs at least one unit of fuel. -/
theorem fuelV_pos (v : JV α) : 1 ≤ fuelV v := by
  cases v <;> simp [fuelV]

/-- Items dispatch: closing bracket. -/
theorem pItems_rsb (M : NumModel α) (fuel : Nat) (rest : List Char) :
    pItems M (fuel + 1) (rsb :: rest) = some ([], rest) := rfl

/-- Items dispatch: an item follows. -/
theorem pItems_cons (M : NumModel α) (fuel : Nat) (c : Char) (cs : List Char)
    (h : c ≠ rsb) :
    pItems M (fuel + 1) (c :: cs) =
      (match pV M fuel (c :: cs) with
       | none => none
       | some (v, r) =>
         match r with
         | [] => none
         | e :: r2 =>
           if e = cma then
             match pItems M fuel r2 with
             | none => none
             | some (vs, r3) => some (v :: vs, r3)
           else if e = rsb then some ([v], r2)
           else none) := by
  rw [pItems.eq_def]
  simp [h]

/-- Members dispatch: a quoted key follows. -/
theorem pMembers_qu (M : NumModel α) (fuel : Nat) (rest : List Char) :
    pMembers M (fuel + 1) (qu :: rest) =
      (match pStrBody rest with
       | none => none
       | some (k, r) =>
         match r with
         | [] => none
         | d :: r2 =>
           if d = cln then
             match pV M fuel r2 with
             | none => none
             | some (v, r3) =>
               match r3 with
               | [] => none
               | e :: r4 =>
                 if e = cma then
                   match pMembers M fuel r4 with
                   | none => none
                   | some (tl, r5) => some ((k, v) :: tl, r5)
                 else if e = rcb then some ([(k, v)], r4)
                 else none
           else none) := rfl

/-- Values have positive size. -/
theorem JV.sizeOf_pos (v : JV α) : 0 < sizeOf v := by
  cases v <;> simp_arith

/-- Lists have positive size. -/
theorem sizeOf_list_pos {β : Type} [SizeOf β] (xs : List β) : 0 < sizeOf xs := by
  cases xs <;> simp_arith

/-- Round trip of the parser on serialized values, with the fuel
accounting, by strong induction on the size of the value.  The three
conjuncts cover values, array items and object members. -/
theorem roundTripAux (M : NumModel α) (hne : NMne M) (hh : NMhead M) (hrt : NMrt M) :
    ∀ n : Nat,
      (∀ v : JV α, sizeOf v ≤ n → ∀ rest fuel, fuelV v ≤ fuel →
        pV M fuel (serV M v ++ rest) = some (v, rest)) ∧
      (∀ x : JV α, ∀ xs : List (JV α), sizeOf x + sizeOf xs ≤ n → ∀ rest fuel,
        fuelItems (x :: xs) ≤ fuel →
        pItems M fuel (serV M x ++ (serArrTail M xs ++ rest)) = some (x :: xs, rest)) ∧
      (∀ k : List Char, ∀ x : JV α, ∀ tl : List (List Char × JV α),
        sizeOf x + sizeOf tl ≤ n → ∀ rest fuel, fuelMembers ((k, x) :: tl) ≤ fuel →
        pMembers M fuel (serStr k ++ (cln :: (serV M x ++ (serObjTail M tl ++ rest))))
          = some ((k, x) :: tl, rest)) := by
  intro n
  induction n with
  | zero =>
    refine ⟨?_, ?_, ?_⟩
    · intro v hv
      have := JV.sizeOf_pos v
      omega
    · intro x xs hsz
      have := JV.sizeOf_pos x
      omega
    · intro k x tl hsz
      have := JV.sizeOf_pos x
      omega
  | succ n ih =>
    obtain ⟨ihV, ihI, ihM⟩ := ih
    refine ⟨?_, ?_, ?_⟩
    · -- values
      intro v hsz rest fuel hf
      have h1 : 1 ≤ fuel := le_trans (fuelV_pos v) hf
      obtain ⟨f, rfl⟩ : ∃ f, fuel = f + 1 := ⟨fuel - 1, by omega⟩
      cases v with
      | null =>
        rw [show serV M .null ++ rest = 'n' :: 'u' :: 'l' :: 'l' :: rest from rfl, pV_null]
      | bool b =>
        cases b with
        | true =>
          rw [show serV M (.bool true) ++ rest = 't' :: 'r' :: 'u' :: 'e' :: rest from rfl,
            pV_true]
        | false =>
          rw [show serV M (.bool false) ++ rest
              = 'f' :: 'a' :: 'l' :: 's' :: 'e' :: rest from rfl, pV_false]
      | num a =>
        obtain ⟨c, cs, hcs⟩ := List.exists_cons_of_ne_nil (hne a)
        have hh' := hh a c cs hcs
        rw [show serV M (.num a) = M.ser a from rfl, hcs, List.cons_append,
          pV_num M f c (cs ++ rest) hh'.1 hh'.2.1 hh'.2.2.1 hh'.2.2.2.1 hh'.2.2.2.2.1
            hh'.2.2.2.2.2.1,
          ← List.cons_append, ← hcs, hrt a rest]
      | str s =>
        have hs : serV M (.str s) ++ rest = qu :: (escStr s ++ qu :: rest) := by
          simp [serV, serStr]
        rw [hs, pV_qu, pStrBody_escStr]
      | arr xs =>
        cases xs with
        | nil =>
          have h2 : 1 ≤ f := by
            simp [fuelV, fuelItems] at hf
            omega
          obtain ⟨f', rfl⟩ : ∃ f', f = f' + 1 := ⟨f - 1, by omega⟩
          rw [show serV M (.arr []) ++ rest = lsb :: rsb :: rest from rfl, pV_lsb,
            pItems_rsb]
        | cons x xs' =>
          have h2 : fuelItems (x :: xs') ≤ f := by
            simp [fuelV] at hf
            omega
          have h3 : sizeOf x + sizeOf xs' ≤ n := by
            simp at hsz
            omega
          have hs : serV M (.arr (x :: xs')) ++ rest
              = lsb :: (serV M x ++ (serArrTail M xs' ++ rest)) := by
            simp [serV, litNull, litTrue, litFalse]
          rw [hs, pV_lsb, ihI x xs' h3 rest f h2]
      | obj m =>
        cases m with
        | nil =>
          have h2 : 1 ≤ f := by
            simp [fuelV, fuelMembers] at hf
            omega
          obtain ⟨f', rfl⟩ : ∃ f', f = f' + 1 := ⟨f - 1, by omega⟩
          rw [show serV M (.obj []) ++ rest = lcb :: rcb :: rest from rfl, pV_lcb]
          rfl
        | cons e tl =>
          obtain ⟨k, x⟩ := e
          have h2 : fuelMembers ((k, x) :: tl) ≤ f := by
            simp [fuelV] at hf
            omega
          have h3 : sizeOf x + sizeOf tl ≤ n := by
            simp at hsz
            omega
          have hs : serV M (.obj ((k, x) :: tl)) ++ rest
              = lcb :: (serStr k ++ (cln :: (serV M x ++ (serObjTail M tl ++ rest)))) := by
            simp [serV, litNull, litTrue, litFalse]
          rw [hs, pV_lcb, ihM k x tl h3 rest f h2]
    · -- array items
      intro x xs hsz rest fuel hf
      have h1 : 1 ≤ fuel := by
        simp [fuelItems] at hf
        omega
      obtain ⟨f, rfl⟩ : ∃ f, fuel = f + 1 := ⟨fuel - 1, by omega⟩
      obtain ⟨c, cs, hcs⟩ := List.exists_cons_of_ne_nil (serV_ne_nil M hne x)
      have hcr : c ≠ rsb := serV_head_ne_rsb M hh x c cs hcs
      have hfx : fuelV x ≤ f := by
        simp [fuelItems] at hf
        omega
      have hszx : sizeOf x ≤ n := by
        have := sizeOf_list_pos xs
        omega
      rw [hcs, List.cons_append, pItems_cons M f c (cs ++ (serArrTail M xs ++ rest)) hcr,
        ← List.cons_append, ← hcs, ihV x hszx (serArrTail M xs ++ rest) f hfx]
      cases xs with
      | nil =>
        rw [show serArrTail M ([] : List (JV α)) ++ rest = rsb :: rest from rfl]
        simp [show ¬(rsb = cma) by decide]
      | cons y ys =>
        have hfy : fuelItems (y :: ys) ≤ f := by
          simp [fuelItems] at hf ⊢
          omega
        have hszy : sizeOf y + sizeOf ys ≤ n := by
          have := JV.sizeOf_pos x
          simp at hsz
          omega
        have ht : serArrTail M (y :: ys) ++ rest
            = cma :: (serV M y ++ (serArrTail M ys ++ rest)) := by
          simp [serArrTail]
        rw [ht]
        simp [ihI y ys hszy rest f hfy]
    · -- object members
      intro k x tl hsz rest fuel hf
      have h1 : 1 ≤ fuel := by
        simp [fuelMembers] at hf
        omega
      obtain ⟨f, rfl⟩ : ∃ f, fuel = f + 1 := ⟨fuel - 1, by omega⟩
      have hfx : fuelV x ≤ f := by
        simp [fuelMembers] at hf
        omega
      have hszx : sizeOf x ≤ n := by
        have := sizeOf_list_pos tl
        omega
      have hs : serStr k ++ (cln :: (serV M x ++ (serObjTail M tl ++ rest)))
          = qu :: (escStr k ++ qu :: (cln :: (serV M x ++ (serObjTail M tl ++ rest)))) := by
        simp [serStr]
      rw [hs, pMembers_qu, pStrBody_escStr]
      simp only [if_pos rfl, if_true, eq_self_iff_true]
      rw [ihV x hszx (serObjTail M tl ++ rest) f hfx]
      cases tl with
      | nil =>
        rw [show serObjTail M ([] : List (List Char × JV α)) ++ rest = rcb :: rest from rfl]
        simp [show ¬(rcb = cma) by decide]
      | cons e2 ys =>
        obtain ⟨k2, y⟩ := e2
        have hfy : fuelMembers ((k2, y) :: ys) ≤ f := by
          simp [fuelMembers] at hf ⊢
          omega
        have hszy : sizeOf y + sizeOf ys ≤ n := by
          have := JV.sizeOf_pos x
          simp at hsz
          omega
        have ht : serObjTail M ((k2, y) :: ys) ++ rest
            = cma :: (serStr k2 ++ (cln :: (serV M y ++ (serObjTail M ys ++ rest)))) := by
          simp [serObjTail]
        rw [ht]
        simp [ihM k2 y ys hszy rest f hfy]

/-- Round trip: a serialized value parses back, given enough fuel. -/
theorem pV_ser (M : NumModel α) (hne : NMne M) (hh : NMhead M) (hrt : NMrt M)
    (v : JV α) (rest : List Char) (fuel : Nat) (hf : fuelV v ≤ fuel) :
    pV M fuel (serV M v ++ rest) = some (v, rest) :=
  (roundTripAux M hne hh hrt (sizeOf v)).1 v (le_refl _) rest fuel hf

/-- The needed fuel is bounded by the serialized length, by strong
induction on the size of the value. -/
theorem fuelLeAux (M : NumModel α) (hne : NMne M) :
    ∀ n : Nat,
      (∀ v : JV α, sizeOf v ≤ n → fuelV v ≤ (serV M v).length) ∧
      (∀ x : JV α, ∀ xs : List (JV α), sizeOf x + sizeOf xs ≤ n →
        fuelItems (x :: xs) ≤ (serV M x).length + (serArrTail M xs).length) ∧
      (∀ x : JV α, ∀ tl : List (List Char × JV α), sizeOf x + sizeOf tl ≤ n →
        fuelMembers ((default, x) :: tl) ≤ (serV M x).length + (serObjTail M tl).length + 1) := by
  intro n
  induction n with
  | zero =>
    refine ⟨?_, ?_, ?_⟩
    · intro v hv
      have := JV.sizeOf_pos v
      omega
    · intro x xs hsz
      have := JV.sizeOf_pos x
      omega
    · intro x tl hsz
      have := JV.sizeOf_pos x
      omega
  | succ n ih =>
    obtain ⟨ihV, ihI, ihM⟩ := ih
    refine ⟨?_, ?_, ?_⟩
    · intro v hsz
      cases v with
      | null => simp [fuelV, serV, litNull, litTrue, litFalse]
      | bool b => cases b <;> simp [fuelV, serV, litNull, litTrue, litFalse]
      | num a =>
        have : 0 < (M.ser a).length := List.length_pos.mpr (hne a)
        simp [fuelV, serV, litNull, litTrue, litFalse]
        omega
      | str s => simp [fuelV, serV, serStr]
      | arr xs =>
        cases xs with
        | nil => simp [fuelV, fuelItems, serV]
        | cons x xs' =>
          have h3 : sizeOf x + sizeOf xs' ≤ n := by
            simp at hsz
            omega
          have := ihI x xs' h3
          have h4 : 2 ≤ fuelItems (x :: xs') := by
            have := fuelV_pos x
            simp [fuelItems]
            omega
          simp [fuelV, serV, litNull, litTrue, litFalse]
          omega
      | obj m =>
        cases m with
        | nil => simp [fuelV, fuelMembers, serV]
        | cons e tl =>
          obtain ⟨k, x⟩ := e
          have h3 : sizeOf x + sizeOf tl ≤ n := by
            simp at hsz
            omega
          have h5 := ihM x tl h3
          have h6 : fuelMembers ((k, x) :: tl) = fuelMembers (((default : List Char), x) :: tl) := rfl
          have h4 : 2 ≤ fuelMembers ((k, x) :: tl) := by
            have := fuelV_pos x
            simp [fuelMembers]
            omega
          simp [fuelV, serV, serStr]
          rw [h6] at h4
          omega
    · intro x xs hsz
      have hszx : sizeOf x ≤ n := by
        have := sizeOf_list_pos xs
        omega
      have hx := ihV x hszx
      cases xs with
      | nil =>
        simp [fuelItems, serArrTail]
        omega
      | cons y ys =>
        have hszy : sizeOf y + sizeOf ys ≤ n := by
          have := JV.sizeOf_pos x
          simp at hsz
          omega
        have hy := ihI y ys hszy
        simp [fuelItems, serArrTail] at hy ⊢
        omega
    · intro x tl hsz
      have hszx : sizeOf x ≤ n := by
        have := sizeOf_list_pos tl
        omega
      have hx := ihV x hszx
      cases tl with
      | nil =>
        simp [fuelMembers, serObjTail]
        omega
      | cons e2 ys =>
        obtain ⟨k2, y⟩ := e2
        have hszy : sizeOf y + sizeOf ys ≤ n := by
          have := JV.sizeOf_pos x
          simp at hsz
          omega
        have hy := ihM y ys hszy
        have h6 : fuelMembers ((k2, y) :: ys) = fuelMembers (((default : List Char), y) :: ys) := rfl
        simp [fuelMembers, serObjTail, serStr] at hy ⊢
        omega

/-- `parse_str` inverts serialization: the round trip of the
persistence codec and of `SET`-then-`GET`. -/
theorem parseStr_serV (M : NumModel α) (hne : NMne M) (hh : NMhead M) (hrt : NMrt M)
    (v : JV α) : parseStr M (serV M v) = .ok v := by
  have hb : fuelV v ≤ (serV M v).length + 1 :=
    le_trans ((fuelLeAux M hne (sizeOf v)).1 v (le_refl _)) (Nat.le_succ _)
  have h := pV_ser M hne hh hrt v [] ((serV M v).length + 1) hb
  rw [List.append_nil] at h
  unfold parseStr
  rw [h]

/-! ## Operation-level helper lemmas -/

/-- The pure rebuild leaves an unmatched tree unchanged. -/
theorem rwpV_noMatch (g : JV α → Option (JV α)) (v : JV α) (st : Step)
    (rest : List Step) (h : selV v (st :: rest) = []) :
    rwpV g v (st :: rest) = v := by
  have h1 := rwV_pure (fun (s : Unit) _ => s) g () v st rest
  have h2 := rwV_noMatch (fun (s : Unit) v => some (s, g v)) () v st rest h
  rw [h1] at h2
  simpa using h2

/-- `value_op` with a path that matches nothing: the transform is never
invoked, the result is `Null`, the document and closure state are
untouched. -/
theorem valueOp_noMatch {τ : Type} (f : τ → JV α → Option (τ × Except String (JV α)))
    (t0 : τ) (v : JV α) (st : Step) (rest : List Step)
    (h : selV v (st :: rest) = []) :
    valueOp f t0 v (st :: rest) = some (.ok .null, v, t0) := by
  unfold valueOp
  rw [if_neg (by simp), rwV_noMatch (collectF f) (t0, [], JV.null) v st rest h]
  rfl

/-- Folding the delete counter over the matches counts the non-null
ones. -/
theorem foldl_delCount (ms : List (JV α)) (d : Nat) :
    ms.foldl (fun deleted v => if v.isNull then deleted else deleted + 1) d
      = d + ms.countP (fun v => !v.isNull) := by
  induction ms generalizing d with
  | nil => simp
  | cons m tl ih =>
    by_cases hm : m.isNull
    · simp [hm, ih, List.countP_cons]
    · simp [hm, ih, List.countP_cons]
      omega

/-- `delete_path` removes every match and counts the non-null ones. -/
theorem deletePath_spec (doc : JV α) (st : Step) (rest : List Step) :
    deletePath doc (st :: rest) =
      ((selV doc (st :: rest)).countP (fun v => !v.isNull),
        rwpV (fun _ => none) doc (st :: rest)) := by
  unfold deletePath
  rw [rwV_pure (fun (deleted : Nat) v => if v.isNull then deleted else deleted + 1)
    (fun _ => none) 0 doc st rest]
  simp [foldl_delCount]

/-- Folding the constant-true update from `true` stays `true`. -/
theorem foldl_true (ms : List (JV α)) :
    ms.foldl (fun (_ : Bool) (_ : JV α) => true) true = true := by
  induction ms with
  | nil => rfl
  | cons m tl ih => simpa using ih

/-- The `replaced` flag of `set_value` records whether the path
matched anything. -/
theorem foldl_replaced (ms : List (JV α)) :
    ms.foldl (fun (_ : Bool) (_ : JV α) => true) false = !ms.isEmpty := by
  cases ms with
  | nil => rfl
  | cons m tl => simpa using foldl_true tl


/-- `set_value` at the root path. -/
theorem setValue_root (M : NumModel α) (doc : JV α) (data : List Char)
    (opt : SetOptions) (json : JV α) (hp : parseStr M data = .ok json) :
    setValue M doc data [] opt =
      if opt = .notExists then (.ok false, doc) else (.ok true, json) := by
  unfold setValue
  rw [hp]
  simp

/-- The replace pass of `set_value`: the flag records whether anything
matched, the tree has every match replaced by the payload. -/
theorem setValue_replacePass (json : JV α) (doc : JV α) (st : Step) (rest : List Step) :
    (rwV (fun (_ : Bool) (_ : JV α) => some (true, some json)) false doc (st :: rest)).getD
        (false, doc)
      = (!(selV doc (st :: rest)).isEmpty, rwpV (fun _ => some json) doc (st :: rest)) := by
  rw [rwV_pure (fun (_ : Bool) (_ : JV α) => true) (fun _ => some json) false doc st rest]
  simp [foldl_replaced]

/-- `set_value` on a non-root path that matches: replace every match. -/
theorem setValue_matched (M : NumModel α) (doc : JV α) (data : List Char) (st : Step)
    (rest : List Step) (opt : SetOptions) (json : JV α)
    (hp : parseStr M data = .ok json) (ho : opt ≠ .notExists)
    (hm : selV doc (st :: rest) ≠ []) :
    setValue M doc data (st :: rest) opt
      = (.ok true, rwpV (fun _ => some json) doc (st :: rest)) := by
  unfold setValue
  rw [hp]
  dsimp only
  rw [if_neg (show ¬(st :: rest = ([] : List Step)) by simp)]
  simp only [if_neg ho]
  rw [setValue_replacePass json doc st rest]
  simp [hm]

/-- `set_value` on a non-root path that matches nothing: fall through
to `add_value` unless the `XX` guard blocks it. -/
theorem setValue_unmatched (M : NumModel α) (doc : JV α) (data : List Char) (st : Step)
    (rest : List Step) (opt : SetOptions) (json : JV α)
    (hp : parseStr M data = .ok json) (ho : opt ≠ .notExists)
    (hm : selV doc (st :: rest) = []) :
    setValue M doc data (st :: rest) opt
      = if opt = .alreadyExists then (.ok false, doc)
        else addValue doc (st :: rest) json := by
  unfold setValue
  rw [hp]
  dsimp only
  rw [if_neg (show ¬(st :: rest = ([] : List Step)) by simp)]
  simp only [if_neg ho]
  rw [setValue_replacePass json doc st rest,
    rwpV_noMatch (fun _ => some json) doc st rest hm]
  simp [hm]

/-- An `add_value` error leaves the document untouched. -/
theorem addValue_error (doc : JV α) (path : List Step) (json : JV α) (e : String)
    (h : (addValue doc path json).1 = .error e) :
    (addValue doc path json).2 = doc := by
  revert h
  unfold addValue
  split
  · split
    · intro _
      rfl
    · split
      · intro h
        exfalso
        split at h
        · split at h <;> simp at h
        · simp at h
      · intro h
        exfalso
        dsimp only at h
        exact Except.noConfusion h
  · intro _
    rfl

/-- A `set_value` error leaves the document untouched. -/
theorem setValue_error (M : NumModel α) (doc : JV α) (data : List Char)
    (path : List Step) (opt : SetOptions) (e : String)
    (h : (setValue M doc data path opt).1 = .error e) :
    (setValue M doc data path opt).2 = doc := by
  cases hp : parseStr M data with
  | error e2 => unfold setValue; rw [hp]
  | ok json =>
    cases path with
    | nil =>
      rw [setValue_root M doc data opt json hp] at h
      by_cases ho : opt = SetOptions.notExists <;> simp [ho] at h
    | cons st rest =>
      by_cases ho : opt = SetOptions.notExists
      · subst ho
        unfold setValue at h ⊢
        rw [hp] at h ⊢
        dsimp only at h ⊢
        rw [if_neg (show ¬(st :: rest = ([] : List Step)) by simp)] at h ⊢
        simp only [if_pos rfl] at h ⊢
        simp only [show (SetOptions.notExists = SetOptions.alreadyExists) = False by
          simp, if_false] at h ⊢
        exact addValue_error doc (st :: rest) json e h
      · by_cases hm : selV doc (st :: rest) = []
        · rw [setValue_unmatched M doc data st rest opt json hp ho hm] at h ⊢
          by_cases ha : opt = SetOptions.alreadyExists
          · simp [ha] at h
          · simp only [ha, if_false] at h ⊢
            exact addValue_error doc (st :: rest) json e h
        · rw [setValue_matched M doc data st rest opt json hp ho hm] at h
          simp at h

/-! ## Claims -/

/-- Claim C10: for an existing document, when a non-root path matches
zero nodes, the generic per-match engine (`value_op`, on which
NUMINCRBY/NUMMULTBY/NUMPOWBY, STRAPPEND, ARRAPPEND, ARRINSERT, ARRPOP
and ARRTRIM are built) succeeds with the JSON null value as its result
and leaves the document unchanged, rather than failing with a
path-does-not-exist or key error.  Stated for an arbitrary (stateful,
possibly failing) per-match transform, and instantiated for the
modelled commands. -/
theorem claim_C10_zero_match (doc : JV α) (path : List Step) (h1 : path ≠ [])
    (h2 : selV doc path = []) :
    (∀ (τ : Type) (f : τ → JV α → Option (τ × Except String (JV α))) (t0 : τ),
      valueOp f t0 doc path = some (.ok .null, doc, t0)) ∧
    (∀ (isFin : α → Bool) (g : α → α → α) (n : α),
      jsonNumOp isFin g n (some doc) path = some (.ok (.val .null), some doc)) ∧
    (∀ (M : NumModel α) (index : Int),
      jsonArrPop M (some doc) path index
        = some (.ok (.bulk (serV M JV.null)), some doc)) ∧
    (∀ start stop : Nat,
      jsonArrTrim (some doc) path start stop = some (.ok (.val .null), some doc)) := by
  cases path with
  | nil => exact absurd rfl h1
  | cons st rest =>
    have base : ∀ (τ : Type) (f : τ → JV α → Option (τ × Except String (JV α))) (t0 : τ),
        valueOp f t0 doc (st :: rest) = some (.ok .null, doc, t0) :=
      fun τ f t0 => valueOp_noMatch f t0 doc st rest h2
    refine ⟨base, ?_, ?_, ?_⟩
    · intro isFin g n
      unfold jsonNumOp
      dsimp only
      rw [base Unit (liftPure (numOpTransform isFin g n)) ()]
    · intro M index
      unfold jsonArrPop
      dsimp only
      rw [base (Int × JV α) arrPopTransform (index, JV.null)]
    · intro start stop
      unfold jsonArrTrim
      dsimp only
      rw [base (Nat × Nat) arrTrimTransform (start, stop)]

/-- Witness for C10 at a concrete input: a one-member object, a path
to an absent member. -/
theorem claim_C10_witness :
    jsonNumOp toyFloatModel.isFinite toyFloatModel.add 1
        (some (JV.obj [(['a'], JV.num (1 : Int))])) [Step.key ['b']]
      = some (.ok (.val .null), some (JV.obj [(['a'], JV.num 1)])) ∧
    jsonArrTrim (some (JV.obj [(['a'], JV.num (1 : Int))])) [Step.key ['b']] 0 5
      = some (.ok (.val .null), some (JV.obj [(['a'], JV.num 1)])) :=
  ⟨(claim_C10_zero_match (JV.obj [(['a'], JV.num 1)]) [Step.key ['b']] (by simp)
      rfl).2.1 toyFloatModel.isFinite toyFloatModel.add 1,
   (claim_C10_zero_match (JV.obj [(['a'], JV.num 1)]) [Step.key ['b']] (by simp)
      rfl).2.2.2 0 5⟩

/-- Claim C2: for a mutation whose path matches several nodes, every
match is transformed independently; a failed match keeps its original
value while the other matches are still processed (the rebuilt tree is
`rwpV (appOf g)`); the call does not report success if any match
failed; one failure is surfaced verbatim; two or more failures are
concatenated into one compound error. -/
theorem claim_C2_multi_match (g : JV α → Except String (JV α)) (doc : JV α)
    (path : List Step) (h1 : path ≠ []) :
    ∃ res : Except String (JV α),
      valueOp (liftPure g) () doc path = some (res, rwpV (appOf g) doc path, ()) ∧
      (errsOf g (selV doc path) = [] → res = .ok (resFold g JV.null (selV doc path))) ∧
      (errsOf g (selV doc path) ≠ [] → ∀ w, res ≠ .ok w) ∧
      (∀ e, errsOf g (selV doc path) = [e] → res = .error e) ∧
      (2 ≤ (errsOf g (selV doc path)).length →
        res = .error (String.join (errsOf g (selV doc path)))) := by
  cases path with
  | nil => exact absurd rfl h1
  | cons st rest =>
    refine ⟨finishOp (errsOf g (selV doc (st :: rest)))
        (resFold g JV.null (selV doc (st :: rest))),
      valueOp_pure g doc st rest, ?_, ?_, ?_, ?_⟩
    · intro he
      rw [he]
      rfl
    · intro he w
      cases hes : errsOf g (selV doc (st :: rest)) with
      | nil => exact absurd hes he
      | cons e tl =>
        cases tl with
        | nil => simp [finishOp]
        | cons e2 tl2 => simp [finishOp]
    · intro e he
      rw [he]
      rfl
    · intro hlen
      cases hes : errsOf g (selV doc (st :: rest)) with
      | nil => rw [hes] at hlen; simp at hlen
      | cons e tl =>
        cases tl with
        | nil => rw [hes] at hlen; simp at hlen
        | cons e2 tl2 => simp [finishOp]

/-- Witness for C2 at a concrete input: a two-member object under a
wildcard path, both matches failing the numeric transform, giving the
concatenated compound error while the document is rebuilt with both
original values kept. -/
theorem claim_C2_witness :
    valueOp (liftPure (numOpTransform toyFloatModel.isFinite toyFloatModel.add 1)) ()
        (JV.obj [(['a'], JV.str ['x']), (['b'], JV.bool true)]) [Step.wild]
      = some (.error (String.join
            ["ERR wrong type of path value - expected number but found string",
             "ERR wrong type of path value - expected number but found boolean"]),
          rwpV (appOf (numOpTransform toyFloatModel.isFinite toyFloatModel.add 1))
            (JV.obj [(['a'], JV.str ['x']), (['b'], JV.bool true)]) [Step.wild], ()) := by
  obtain ⟨res, he, _, _, _, h2⟩ :=
    claim_C2_multi_match (numOpTransform toyFloatModel.isFinite toyFloatModel.add 1)
      (JV.obj [(['a'], JV.str ['x']), (['b'], JV.bool true)]) [Step.wild] (by simp)
  rw [h2 (by decide)] at he
  exact he

/-- The shared single-match behavior of `json_num_op` (claim C5). -/
theorem jsonNumOp_single (isFin : α → Bool) (g : α → α → α) (n v : α) (doc : JV α)
    (st : Step) (rest : List Step) (hsel : selV doc (st :: rest) = [JV.num v]) :
    (isFin (g v n) = true →
      jsonNumOp isFin g n (some doc) (st :: rest)
        = some (.ok (.val (JV.num (g v n))),
            some (rwpV (fun _ => some (JV.num (g v n))) doc (st :: rest)))) ∧
    (isFin (g v n) = false →
      jsonNumOp isFin g n (some doc) (st :: rest)
        = some (.error "ERR cannot represent result as Number", some doc)) := by
  constructor
  · intro hf
    unfold jsonNumOp
    dsimp only
    rw [valueOp_pure (numOpTransform isFin g n) doc st rest, hsel]
    have hdoc : rwpV (appOf (numOpTransform isFin g n)) doc (st :: rest)
        = rwpV (fun _ => some (JV.num (g v n))) doc (st :: rest) := by
      refine rwpV_congr _ _ doc st rest ?_
      intro w hw
      rw [hsel] at hw
      simp at hw
      subst hw
      simp [appOf, numOpTransform, hf]
    rw [hdoc]
    simp [errsOf, resFold, numOpTransform, hf, finishOp]
  · intro hf
    unfold jsonNumOp
    dsimp only
    rw [valueOp_pure (numOpTransform isFin g n) doc st rest, hsel]
    have hdoc : rwpV (appOf (numOpTransform isFin g n)) doc (st :: rest) = doc := by
      refine rwpV_id_of _ doc st rest ?_
      intro w hw
      rw [hsel] at hw
      simp at hw
      subst hw
      simp [appOf, numOpTransform, hf]
    rw [hdoc]
    simp [errsOf, resFold, numOpTransform, hf, finishOp]

/-- Claim C5: on a number target, NUMINCRBY, NUMMULTBY and NUMPOWBY
apply `+`, `*` and `powf` in the abstract double-precision model,
store and reply the result when it is finite, and fail with the
arithmetic error exactly when the result is not finite — in which case
the non-finite result is never stored and the document is unchanged. -/
theorem claim_C5_numeric (FM : FloatModel α) (n v : α) (doc : JV α) (st : Step)
    (rest : List Step) (hsel : selV doc (st :: rest) = [JV.num v]) :
    ((FM.isFinite (FM.add v n) = true →
      jsonNumIncrby FM n (some doc) (st :: rest)
        = some (.ok (.val (JV.num (FM.add v n))),
            some (rwpV (fun _ => some (JV.num (FM.add v n))) doc (st :: rest)))) ∧
     (FM.isFinite (FM.add v n) = false →
      jsonNumIncrby FM n (some doc) (st :: rest)
        = some (.error "ERR cannot represent result as Number", some doc))) ∧
    ((FM.isFinite (FM.mul v n) = true →
      jsonNumMultby FM n (some doc) (st :: rest)
        = some (.ok (.val (JV.num (FM.mul v n))),
            some (rwpV (fun _ => some (JV.num (FM.mul v n))) doc (st :: rest)))) ∧
     (FM.isFinite (FM.mul v n) = false →
      jsonNumMultby FM n (some doc) (st :: rest)
        = some (.error "ERR cannot represent result as Number", some doc))) ∧
    ((FM.isFinite (FM.powf v n) = true →
      jsonNumPowby FM n (some doc) (st :: rest)
        = some (.ok (.val (JV.num (FM.powf v n))),
            some (rwpV (fun _ => some (JV.num (FM.powf v n))) doc (st :: rest)))) ∧
     (FM.isFinite (FM.powf v n) = false →
      jsonNumPowby FM n (some doc) (st :: rest)
        = some (.error "ERR cannot represent result as Number", some doc))) :=
  ⟨jsonNumOp_single FM.isFinite FM.add n v doc st rest hsel,
   jsonNumOp_single FM.isFinite FM.mul n v doc st rest hsel,
   jsonNumOp_single FM.isFinite FM.powf n v doc st rest hsel⟩

/-- Witness for C5 at a concrete input: incrementing `5` by `2` at a
member path stores and replies `7`; in the toy model `(30:Int)^2`
exceeds the finiteness bound, so NUMPOWBY fails with the arithmetic
error and stores nothing. -/
theorem claim_C5_witness :
    jsonNumIncrby toyFloatModel 2 (some (JV.obj [(['a'], JV.num (5 : Int))]))
        [Step.key ['a']]
      = some (.ok (.val (JV.num 7)), some (JV.obj [(['a'], JV.num 7)])) ∧
    jsonNumPowby toyFloatModel 2 (some (JV.obj [(['a'], JV.num (40 : Int))]))
        [Step.key ['a']]
      = some (.error "ERR cannot represent result as Number",
          some (JV.obj [(['a'], JV.num 40)])) :=
  ⟨(claim_C5_numeric toyFloatModel 2 5 (JV.obj [(['a'], JV.num 5)]) (Step.key ['a'])
      [] rfl).1.1 (by decide),
   (claim_C5_numeric toyFloatModel 2 40 (JV.obj [(['a'], JV.num 40)]) (Step.key ['a'])
      [] rfl).2.2.2 (by decide)⟩

/-- Counterexample to claim C1 as stated: NUMINCRBY over a wildcard
path matching a number and a string returns an error, yet the document
afterwards differs from the document before — the successful match's
increment is kept while the error of the failed match is reported, so
a partially applied mutation is observable. -/
theorem claim_C1_counterexample :
    jsonNumIncrby toyFloatModel 1
        (some (JV.obj [(['a'], JV.num (1 : Int)), (['b'], JV.str ['x'])])) [Step.wild]
      = some (.error "ERR wrong type of path value - expected number but found string",
          some (JV.obj [(['a'], JV.num 2), (['b'], JV.str ['x'])])) ∧
    JV.obj [(['a'], JV.num (2 : Int)), (['b'], JV.str ['x'])]
      ≠ JV.obj [(['a'], JV.num 1), (['b'], JV.str ['x'])] := by
  constructor
  · rfl
  · simp

/-- Claim C1, amended: a failed `SET` leaves the store unchanged (its
fallible steps precede any mutation, and the per-key document is
restored on every error path the model can express); `DELETE` cannot
fail at all in the model; and an erroring `value_op` call leaves the
document unchanged when no match's transform succeeded — at the root,
or at a non-root path at which every match fails.  (The
counterexample's situation — some matches succeed while others fail —
is exactly the one carved out.) -/
theorem claim_C1_amended (M : NumModel α) (store : Option (JV α)) (path : List Step)
    (data : List Char) (flag : Option SetFlag) (g : JV α → Except String (JV α))
    (doc : JV α) (st : Step) (rest : List Step) :
    (∀ e store', jsonSet M store path data flag = (.error e, store') → store' = store) ∧
    (∀ e, g doc = .error e → valueOp (liftPure g) () doc [] = some (.error e, doc, ())) ∧
    ((∀ w ∈ selV doc (st :: rest), ∃ e, g w = .error e) →
      ∃ r, valueOp (liftPure g) () doc (st :: rest) = some (r, doc, ()) ∧
        (selV doc (st :: rest) ≠ [] → ∀ w, r ≠ .ok w)) := by
  refine ⟨?_, ?_, ?_⟩
  · intro e store' h
    cases store with
    | none =>
      cases flag with
      | none =>
        unfold jsonSet at h
        cases hp : parseStr M data with
        | error e2 =>
          rw [hp] at h
          dsimp only at h
          rw [Prod.mk.injEq] at h
          exact h.2.symm
        | ok json =>
          rw [hp] at h
          dsimp only at h
          by_cases hpath : path = []
          · simp [hpath] at h
          · rw [if_neg hpath, Prod.mk.injEq] at h
            exact h.2.symm
      | some f =>
        cases f with
        | nx =>
          unfold jsonSet at h
          cases hp : parseStr M data with
          | error e2 =>
            rw [hp] at h
            dsimp only at h
            rw [Prod.mk.injEq] at h
            exact h.2.symm
          | ok json =>
            rw [hp] at h
            dsimp only at h
            by_cases hpath : path = []
            · simp [hpath] at h
            · rw [if_neg hpath, Prod.mk.injEq] at h
              exact h.2.symm
        | xx =>
          unfold jsonSet at h
          rw [Prod.mk.injEq] at h
          simp at h
    | some d =>
      cases flag with
      | none =>
        unfold jsonSet at h
        dsimp only at h
        cases hsv : (setValue M d data path (flagToOpt none)).1 with
        | ok b => rw [hsv] at h; simp at h
        | error e2 =>
          rw [hsv] at h
          rw [Prod.mk.injEq] at h
          rw [h.2.symm, setValue_error M d data path (flagToOpt none) e2 hsv]
      | some f =>
        cases f with
        | nx =>
          unfold jsonSet at h
          rw [Prod.mk.injEq] at h
          simp at h
        | xx =>
          unfold jsonSet at h
          dsimp only at h
          cases hsv : (setValue M d data path (flagToOpt (some SetFlag.xx))).1 with
          | ok b => rw [hsv] at h; simp at h
          | error e2 =>
            rw [hsv] at h
            rw [Prod.mk.injEq] at h
            rw [h.2.symm,
              setValue_error M d data path (flagToOpt (some SetFlag.xx)) e2 hsv]
  · intro e hge
    unfold valueOp
    rw [if_pos rfl]
    simp [liftPure, hge]
  · intro hall
    refine ⟨finishOp (errsOf g (selV doc (st :: rest)))
        (resFold g JV.null (selV doc (st :: rest))), ?_, ?_⟩
    · rw [valueOp_pure g doc st rest,
        rwpV_id_of (appOf g) doc st rest (by
          intro w hw
          obtain ⟨e, he⟩ := hall w hw
          simp [appOf, he])]
    · intro hne w
      cases hsel : selV doc (st :: rest) with
      | nil => exact absurd hsel hne
      | cons m tl =>
        obtain ⟨e, he⟩ := hall m (by rw [hsel]; simp)
        have herr : errsOf g (m :: tl) = e :: errsOf g tl := by
          simp [errsOf, he]
        rw [herr]
        cases errsOf g tl with
        | nil => simp [finishOp]
        | cons e2 tl2 => simp [finishOp]

/-- Witness for the amended C1 at a concrete input: a failing
root-path numeric transform reports its error and leaves the document
exactly as it was. -/
theorem claim_C1_witness :
    valueOp (liftPure (numOpTransform toyFloatModel.isFinite toyFloatModel.add 1)) ()
        (JV.str ['x']) []
      = some (.error "ERR wrong type of path value - expected number but found string",
          JV.str ['x'], ()) :=
  (claim_C1_amended intNumModel none [] [] none
      (numOpTransform toyFloatModel.isFinite toyFloatModel.add 1)
      (JV.str ['x']) Step.wild []).2.1
    "ERR wrong type of path value - expected number but found string" rfl

/-- Claim C8: deleting the root drops the whole key and replies 1;
deleting a non-root path removes every match and replies the number of
non-null matches (a null match is removed but not counted). -/
theorem claim_C8_delete (doc : JV α) (path : List Step) :
    jsonDel (some doc) [] = (.intReply 1, none) ∧
    (path ≠ [] →
      jsonDel (some doc) path
        = (.intReply ((selV doc path).countP (fun v => !v.isNull) : Int),
           some (rwpV (fun _ => none) doc path))) := by
  constructor
  · rfl
  · intro h
    cases path with
    | nil => exact absurd rfl h
    | cons st rest =>
      unfold jsonDel
      dsimp only
      rw [if_neg (show ¬(st :: rest = ([] : List Step)) by simp)]
      rw [deletePath_spec doc st rest]

/-- Witness for C8 at a concrete input: a wildcard delete over a
number and a null removes both entries but counts only the non-null
one. -/
theorem claim_C8_witness :
    jsonDel (some (JV.obj [(['a'], JV.num (1 : Int)), (['b'], JV.null)])) [Step.wild]
      = (.intReply 1, some (JV.obj [])) :=
  (claim_C8_delete (JV.obj [(['a'], JV.num (1 : Int)), (['b'], JV.null)])
      [Step.wild]).2 (by simp)

/-- `value_op` at the root path: the transform is applied directly to
the
root value; on failure the original document is kept. -/
theorem valueOp_root {τ : Type} (f : τ → JV α → Option (τ × Except String (JV α)))
    (t0 : τ) (v : JV α) :
    valueOp f t0 v [] =
      match f t0 v with
      | none => none
      | some (t', .ok w) => some (.ok w, w, t')
      | some (t', .error e) => some (.error e, v, t') := by
  unfold valueOp
  rw [if_pos rfl]

/-- Claim C3 (code bug): `ARRTRIM 0 2` on the three-element array
`[1,2,3]` keeps only `[1,2]` — the source slices `&curr[start..stop]`
exclusively, so the element at the clamped `stop` index is dropped and
the last element of an array can never be retained — and the reply is
the raw trimmed value, not its length.  The claim (keep indices
`start..stop` inclusive, reply the new length `3`) fails on this
input. -/
theorem claim_C3_counterexample :
    jsonArrTrim (some (JV.arr [JV.num (1 : Int), JV.num 2, JV.num 3])) [] 0 2
      = some (.ok (.val (JV.arr [JV.num 1, JV.num 2])),
          some (JV.arr [JV.num 1, JV.num 2])) ∧
    JV.arr [JV.num (1 : Int), JV.num 2]
      ≠ JV.arr [JV.num 1, JV.num 2, JV.num 3] := by
  constructor
  · rfl
  · simp

/-- Claim C4 (code bug): `arr_index` on the empty array panics
(`none`): `arr.len() - 1` wraps on `usize` and the inclusive slice
`&arr[start..=end]` is out of range, instead of returning the claimed
`-1`.  (Here with the default range `0 .. usize::MAX` and needle
`1`.) -/
theorem claim_C4_counterexample :
    arrIndex intNumModel (JV.arr ([] : List (JV Int))) [] ['1'] 0 (2 ^ 64 - 1)
      = none := rfl

/-- The index resolution of `json_arr_pop`: clamp from above to
`len - 1`, then count a negative index from the end. -/
def arrPopIndex (len i : Int) : Int :=
  let i1 := min i (len - 1)
  if i1 < 0 then len + i1 else i1

/-- `arr_pop`'s transform on an array, phrased through
`arrPopIndex`. -/
theorem arrPopTransform_arr (s : Int × JV α) (xs : List (JV α)) :
    arrPopTransform s (.arr xs)
      = (if arrPopIndex (xs.length : Int) s.1 ≥ (xs.length : Int) ∨
            arrPopIndex (xs.length : Int) s.1 < 0
         then some ((arrPopIndex (xs.length : Int) s.1, s.2),
           .error "ERR index out of bounds")
         else some ((arrPopIndex (xs.length : Int) s.1,
             xs.getD (arrPopIndex (xs.length : Int) s.1).toNat JV.null),
           .ok (.arr (xs.eraseIdx (arrPopIndex (xs.length : Int) s.1).toNat)))) := by
  unfold arrPopTransform arrPopIndex
  rfl

/-- Counterexample to claim C9 as stated: for the array `[1,2,3]` and
requested index `-5`, the claim's procedure (count from the end, then
clamp into `[0, 2]`) resolves to index `0` and pops `1`; the code
instead reports an out-of-bounds error and leaves the array
unchanged. -/
theorem claim_C9_counterexample :
    jsonArrPop intNumModel (some (JV.arr [JV.num (1 : Int), JV.num 2, JV.num 3])) [] (-5)
      = some (.error "ERR index out of bounds",
          some (JV.arr [JV.num 1, JV.num 2, JV.num 3])) := rfl

/-- Claim C9, amended, at the root path: the index is first clamped
from above to `len - 1` (so a too-large positive index pops the last
element rather than erroring); a negative index is then counted from
the end; if the result is still negative the call errors with
out-of-bounds and the array is unchanged; otherwise the element at the
resolved index is removed and its serialization is the reply.  With no
index argument (`i64::MAX`) the last element is popped.  A non-array
target errors with the type mismatch. -/
theorem claim_C9_amended (M : NumModel α) (xs : List (JV α)) (i : Int) (d : JV α) :
    (arrPopIndex (xs.length : Int) i < 0 →
      jsonArrPop M (some (.arr xs)) [] i
        = some (.error "ERR index out of bounds", some (.arr xs))) ∧
    (0 ≤ arrPopIndex (xs.length : Int) i →
      jsonArrPop M (some (.arr xs)) [] i
        = some (.ok (.bulk (serV M
              (xs.getD (arrPopIndex (xs.length : Int) i).toNat JV.null))),
            some (.arr (xs.eraseIdx (arrPopIndex (xs.length : Int) i).toNat)))) ∧
    (xs ≠ [] → (xs.length : Int) ≤ 2 ^ 63 - 1 →
      jsonArrPop M (some (.arr xs)) [] (2 ^ 63 - 1)
        = some (.ok (.bulk (serV M (xs.getD (xs.length - 1) JV.null))),
            some (.arr (xs.eraseIdx (xs.length - 1))))) ∧
    ((∀ ys, d ≠ .arr ys) →
      jsonArrPop M (some d) [] i
        = some (.error ("ERR wrong type of path value - expected a array but found "
            ++ valueName d), some d)) := by
  have hmain : ∀ j : Int, 0 ≤ arrPopIndex (xs.length : Int) j →
      jsonArrPop M (some (.arr xs)) [] j
        = some (.ok (.bulk (serV M
              (xs.getD (arrPopIndex (xs.length : Int) j).toNat JV.null))),
            some (.arr (xs.eraseIdx (arrPopIndex (xs.length : Int) j).toNat))) := by
    intro j hj
    have hlt : arrPopIndex (xs.length : Int) j < (xs.length : Int) := by
      unfold arrPopIndex
      unfold arrPopIndex at hj
      by_cases hneg : min j ((xs.length : Int) - 1) < 0
      · simp only [hneg, if_true] at hj ⊢
        omega
      · simp only [hneg, if_false] at hj ⊢
        have := min_le_right j ((xs.length : Int) - 1)
        omega
    unfold jsonArrPop
    dsimp only
    rw [valueOp_root arrPopTransform (j, JV.null) (.arr xs),
      arrPopTransform_arr (j, JV.null) xs]
    dsimp only
    rw [if_neg (by push_neg; exact ⟨by omega, hj⟩)]
  refine ⟨?_, hmain i, ?_, ?_⟩
  · intro h
    unfold jsonArrPop
    dsimp only
    rw [valueOp_root arrPopTransform (i, JV.null) (.arr xs),
      arrPopTransform_arr (i, JV.null) xs]
    dsimp only
    rw [if_pos (Or.inr h)]
  · intro hne hlen
    have hpos : 0 < xs.length := List.length_pos.mpr hne
    have hidx : arrPopIndex (xs.length : Int) (2 ^ 63 - 1) = (xs.length : Int) - 1 := by
      unfold arrPopIndex
      rw [min_eq_right (by omega)]
      rw [if_neg (by omega)]
    have h0 : 0 ≤ arrPopIndex (xs.length : Int) (2 ^ 63 - 1) := by omega
    rw [hmain (2 ^ 63 - 1) h0, hidx]
    have htn : ((xs.length : Int) - 1).toNat = xs.length - 1 := by omega
    rw [htn]
  · intro hd
    unfold jsonArrPop
    dsimp only
    rw [valueOp_root arrPopTransform (i, JV.null) d]
    cases d with
    | arr ys => exact absurd rfl (hd ys)
    | null => rfl
    | bool b => rfl
    | num n => rfl
    | str s => rfl
    | obj m => rfl

/-- Witness for the amended C9 at concrete inputs: popping index `1`
of `[1,2,3]` removes and returns `2`; the oversized index `7` is
clamped down and pops the last element `3`. -/
theorem claim_C9_witness :
    jsonArrPop intNumModel (some (JV.arr [JV.num (1 : Int), JV.num 2, JV.num 3])) [] 1
      = some (.ok (.bulk ['2']), some (JV.arr [JV.num 1, JV.num 3])) ∧
    jsonArrPop intNumModel (some (JV.arr [JV.num (1 : Int), JV.num 2, JV.num 3])) [] 7
      = some (.ok (.bulk ['3']), some (JV.arr [JV.num 1, JV.num 2])) :=
  ⟨(claim_C9_amended intNumModel [JV.num 1, JV.num 2, JV.num 3] 1 JV.null).2.1
      (by decide),
   (claim_C9_amended intNumModel [JV.num 1, JV.num 2, JV.num 3] 7 JV.null).2.1
      (by decide)⟩

/-- Counterexample to claim C7 as stated: on the existing key
`{"a":1}`, `SET $.b 2 XX` matches nothing, and the claim's "otherwise
attempts insert-if-absent via add_value" would insert `b` (as the
second conjunct shows `add_value` does); the code instead skips
`add_value` entirely, replies OK and leaves the document without
`b`. -/
theorem claim_C7_counterexample :
    jsonSet intNumModel (some (JV.obj [(['a'], JV.num (1 : Int))])) [Step.key ['b']]
        ['2'] (some .xx)
      = (.ok .okSimple, some (JV.obj [(['a'], JV.num 1)])) ∧
    addValue (JV.obj [(['a'], JV.num (1 : Int))]) [Step.key ['b']] (JV.num 2)
      = (.ok true, JV.obj [(['a'], JV.num 1), (['b'], JV.num 2)]) ∧
    JV.obj [(['a'], JV.num (1 : Int)), (['b'], JV.num 2)]
      ≠ JV.obj [(['a'], JV.num 1)] := by
  refine ⟨rfl, rfl, ?_⟩
  simp

/-- Claim C7, amended: the `NX` guard on an existing key and the `XX`
guard on an absent key are key-level no-ops replying nil for every
path; a root-path `SET` on an existing key replaces the whole
document; a non-root `SET` on an existing key replaces every matched
value, and when nothing matches it attempts `add_value` only without
the `XX` guard — under `XX` it is a no-op that still replies OK; on a
brand-new key, a root path creates the document and a non-root path
fails with "new objects must be created at the root". -/
theorem claim_C7_amended (M : NumModel α) (doc json : JV α) (data : List Char)
    (path : List Step) (st : Step) (rest : List Step) (flag : Option SetFlag)
    (hp : parseStr M data = .ok json) :
    jsonSet M (some doc) path data (some .nx) = (.ok .nilReply, some doc) ∧
    jsonSet M none path data (some .xx) = (.ok .nilReply, none) ∧
    (flag ≠ some .nx →
      jsonSet M (some doc) [] data flag = (.ok .okSimple, some json)) ∧
    (flag ≠ some .nx → selV doc (st :: rest) ≠ [] →
      jsonSet M (some doc) (st :: rest) data flag
        = (.ok .okSimple, some (rwpV (fun _ => some json) doc (st :: rest)))) ∧
    (selV doc (st :: rest) = [] →
      jsonSet M (some doc) (st :: rest) data none
        = (match addValue doc (st :: rest) json with
           | (.ok _, d') => (.ok .okSimple, some d')
           | (.error e, d') => (.error e, some d'))) ∧
    (selV doc (st :: rest) = [] →
      jsonSet M (some doc) (st :: rest) data (some .xx) = (.ok .okSimple, some doc)) ∧
    (flag ≠ some .xx →
      jsonSet M none [] data flag = (.ok .okSimple, some json) ∧
      jsonSet M none (st :: rest) data flag
        = (.error "ERR new objects must be created at the root", none)) := by
  have hops : ∀ f : Option SetFlag, f ≠ some .nx → flagToOpt f ≠ SetOptions.notExists := by
    intro f hf
    cases f with
    | none => simp [flagToOpt]
    | some ff => cases ff with
      | nx => exact absurd rfl hf
      | xx => simp [flagToOpt]
  refine ⟨rfl, rfl, ?_, ?_, ?_, ?_, ?_⟩
  · intro hf
    cases flag with
    | none =>
      unfold jsonSet
      dsimp only
      rw [setValue_root M doc data (flagToOpt none) json hp]
      rfl
    | some ff =>
      cases ff with
      | nx => exact absurd rfl hf
      | xx =>
        unfold jsonSet
        dsimp only
        rw [setValue_root M doc data (flagToOpt (some SetFlag.xx)) json hp]
        rfl
  · intro hf hm
    cases flag with
    | none =>
      unfold jsonSet
      dsimp only
      rw [setValue_matched M doc data st rest (flagToOpt none) json hp
        (hops none hf) hm]
    | some ff =>
      cases ff with
      | nx => exact absurd rfl hf
      | xx =>
        unfold jsonSet
        dsimp only
        rw [setValue_matched M doc data st rest (flagToOpt (some SetFlag.xx)) json hp
          (hops (some SetFlag.xx) hf) hm]
  · intro hm
    unfold jsonSet
    dsimp only
    rw [setValue_unmatched M doc data st rest (flagToOpt none) json hp
      (hops none (by simp)) hm]
    rw [if_neg (by simp [flagToOpt])]
    cases hav : addValue doc (st :: rest) json with
    | mk r d' =>
      cases r with
      | ok b => rfl
      | error e => rfl
  · intro hm
    unfold jsonSet
    dsimp only
    rw [setValue_unmatched M doc data st rest (flagToOpt (some SetFlag.xx)) json hp
      (hops (some SetFlag.xx) (by simp)) hm]
    rw [if_pos (by simp [flagToOpt])]
  · intro hf
    constructor
    · cases flag with
      | none =>
        unfold jsonSet
        dsimp only
        rw [hp]
        rfl
      | some ff =>
        cases ff with
        | xx => exact absurd rfl hf
        | nx =>
          unfold jsonSet
          dsimp only
          rw [hp]
          rfl
    · cases flag with
      | none =>
        unfold jsonSet
        dsimp only
        rw [hp]
        dsimp only
        rw [if_neg (show ¬(st :: rest = ([] : List Step)) by simp)]
      | some ff =>
        cases ff with
        | xx => exact absurd rfl hf
        | nx =>
          unfold jsonSet
          dsimp only
          rw [hp]
          dsimp only
          rw [if_neg (show ¬(st :: rest = ([] : List Step)) by simp)]

/-- Witness for the amended C7 at a concrete input: without a guard,
`SET $.b 2` on `{"a":1}` matches nothing and `add_value` inserts the
member. -/
theorem claim_C7_witness :
    jsonSet intNumModel (some (JV.obj [(['a'], JV.num (1 : Int))])) [Step.key ['b']]
        ['2'] none
      = (.ok .okSimple, some (JV.obj [(['a'], JV.num 1), (['b'], JV.num 2)])) :=
  (claim_C7_amended intNumModel (JV.obj [(['a'], JV.num 1)]) (JV.num 2) ['2']
      [] (Step.key ['b']) [] none rfl).2.2.2.2.1 rfl

/-- Claim C6: `save` followed by `load` at the current encoding
version 2 reproduces the document (so in particular its serialized
form); version 0 is handed to the separate legacy decoder; any other
version is the fatal, unrecoverable load failure. -/
theorem claim_C6_persistence (M : NumModel α) (hne : NMne M) (hh : NMhead M)
    (hrt : NMrt M) (legacy : List Char → JV α) (doc : JV α) (s : List Char)
    (ver : Int) :
    jsonRdbLoad M legacy (jsonRdbSave M doc) 2 = some doc ∧
    (jsonRdbLoad M legacy (jsonRdbSave M doc) 2).map (serV M) = some (serV M doc) ∧
    jsonRdbLoad M legacy s 0 = some (legacy s) ∧
    (ver ≠ 0 → ver ≠ 2 → jsonRdbLoad M legacy s ver = none) := by
  have h1 : jsonRdbLoad M legacy (jsonRdbSave M doc) 2 = some doc := by
    unfold jsonRdbLoad jsonRdbSave
    rw [if_neg (by decide), if_pos rfl, parseStr_serV M hne hh hrt doc]
  refine ⟨h1, ?_, ?_, ?_⟩
  · rw [h1]
    rfl
  · unfold jsonRdbLoad
    rw [if_pos rfl]
  · intro h2 h3
    unfold jsonRdbLoad
    rw [if_neg h2, if_neg h3]

/-- Witness for C6 at a concrete input, with the one-value number
model (whose round-trip laws are immediate): a document with an
object, array, number, string and null survives save/load at version
2; version 0 goes to the given legacy decoder; version 1 is fatal. -/
theorem claim_C6_witness :
    jsonRdbLoad unitNumModel (fun _ => JV.null)
        (jsonRdbSave unitNumModel
          (JV.obj [(['a'], JV.arr [JV.num (), JV.str ['x'], JV.null])])) 2
      = some (JV.obj [(['a'], JV.arr [JV.num (), JV.str ['x'], JV.null])]) ∧
    jsonRdbLoad unitNumModel (fun _ => JV.null) ['z'] 0 = some JV.null ∧
    jsonRdbLoad unitNumModel (fun _ => JV.null) ['z'] 1 = none := by
  have hne : NMne unitNumModel := by
    intro a
    simp [unitNumModel]
  have hh : NMhead unitNumModel := by
    intro a c cs h
    injection h with h1 h2
    subst h1
    refine ⟨?_, ?_, ?_, ?_, ?_, ?_, ?_⟩ <;> decide
  have hrt : NMrt unitNumModel := by
    intro a rest
    rfl
  have h := claim_C6_persistence unitNumModel hne hh hrt (fun _ => JV.null)
    (JV.obj [(['a'], JV.arr [JV.num (), JV.str ['x'], JV.null])]) ['z'] 1
  exact ⟨h.1, h.2.2.1, h.2.2.2 (by decide) (by decide)⟩
